import Mathlib

/-!
Verification of the MDX parsing core and OpenAPI transformer of the
dioxus-docs-kit repository.

Strings are modelled as `List Char` (the repository's parsers operate on
`&str` slices; byte indices coincide with character indices on the ASCII
inputs the component grammar is made of).  Character-class predicates
(`is_alphanumeric`, `is_whitespace`, `to_lowercase`) are modelled by the
corresponding `Char` functions of Lean, i.e. by the ASCII fragment of the
Unicode classes used by Rust.  External library calls (serde_yaml /
serde_json deserialisation) are modelled as function parameters, since
their code is not part of the repository.
-/

/-- Shorthand for the character-list model of Rust string slices. -/
abbrev Str := List Char

/- ### Character lemmas -/

/-- `Char.ofNat` of a scalar value below the surrogate range keeps its value. -/
theorem char_toNat_ofNat_of_lt (n : Nat) (h2 : n < 0xd800) : (Char.ofNat n).toNat = n := by
  have hv : Nat.isValidChar n := by left; omega
  rw [Char.ofNat, dif_pos hv]
  simp only [Char.ofNatAux, Char.toNat, UInt32.toNat, BitVec.toNat_ofNatLt]

/-- Lowercasing is idempotent. -/
theorem char_toLower_idem (c : Char) : c.toLower.toLower = c.toLower := by
  by_cases h : c.toNat ≥ 65 ∧ c.toNat ≤ 90
  · have h1 : c.toLower = Char.ofNat (c.toNat + 32) := by
      simp only [Char.toLower, h, and_self, if_true]
    have h2 : (Char.ofNat (c.toNat + 32)).toNat = c.toNat + 32 :=
      char_toNat_ofNat_of_lt _ (by omega)
    rw [h1]
    simp only [Char.toLower, h2]
    rw [if_neg (by omega)]
  · have h1 : c.toLower = c := by
      simp only [Char.toLower, h, if_false]
    rw [h1, h1]

/- ### slugify (crates/dioxus-mdx/src/components/toc.rs)

    pub fn slugify(text: &str) -> String {
        text.to_lowercase()
            .chars()
            .filter_map(|c| {
                if c.is_alphanumeric() {
                    Some(c)
                } else if c.is_whitespace() || c == '-' || c == '_' || c == '.' {
                    Some('-')
                } else {
                    None
                }
            })
            .collect::<String>()
            .split('-')
            .filter(|s| !s.is_empty())
            .collect::<Vec<_>>()
            .join("-")
    }
-/

/-- The per-character classification inside `slugify`'s `filter_map` closure. -/
def slugChar (c : Char) : Option Char :=
  if c.isAlphanum then some c
  else if c.isWhitespace || c == '-' || c == '_' || c == '.' then some '-'
  else none

/-- `str::split(sep)` generalised to a character predicate: the list of
(possibly empty) segments between separator characters. -/
def splitWhen (p : Char → Bool) : Str → List Str
  | [] => [[]]
  | c :: t => if p c then [] :: splitWhen p t else (splitWhen p t).modifyHead (c :: ·)

/-- `str::split('-')`. -/
def splitDash : Str → List Str :=
  splitWhen (fun c => c == '-')

/-- `Vec::join("-")`. -/
def joinDash : List Str → Str
  | [] => []
  | [p] => p
  | p :: ps => p ++ '-' :: joinDash ps

/-- `slugify` from `components/toc.rs`: lowercase, classify each character,
split on `'-'`, drop empty segments, join with `'-'`. -/
def slugify (text : Str) : Str :=
  joinDash (((text.map Char.toLower).filterMap slugChar |> splitDash).filter
    (fun s => !s.isEmpty))

/-- The delimiter set named by the spec: whitespace, `'-'`, `'_'`, `'.'`. -/
def dashChar (c : Char) : Bool :=
  c.isWhitespace || c == '-' || c == '_' || c == '.'

/-- The slug algorithm exactly as claim C3 states it: lowercase, replace every
maximal run of non-alphanumeric characters (of any kind) by a single `'-'`,
trim leading and trailing `'-'`. Runs are the non-empty segments between
non-alphanumeric characters, so dropping empty segments and joining with a
single dash realises run-collapsing plus end-trimming. -/
def claimSlugify (text : Str) : Str :=
  joinDash (((splitWhen (fun c => !c.isAlphanum) (text.map Char.toLower)).filter
    (fun s => !s.isEmpty)))

/-- The amended slug algorithm: characters from `dashChar` delimit segments,
every other non-alphanumeric character is deleted from its segment, empty
segments are dropped and the rest joined by a single `'-'`. -/
def amendedSlugify (text : Str) : Str :=
  joinDash ((((splitWhen dashChar (text.map Char.toLower)).map
    (List.filter Char.isAlphanum)).filter (fun s => !s.isEmpty)))

/- ### splitWhen / joinDash lemmas -/

theorem splitWhen_ne_nil (p : Char → Bool) : ∀ l : Str, splitWhen p l ≠ []
  | [] => by simp [splitWhen]
  | c :: t => by
    simp only [splitWhen]
    split
    · simp
    · have := splitWhen_ne_nil p t
      cases h : splitWhen p t with
      | nil => exact absurd h this
      | cons a r => simp [List.modifyHead]

/-- Segment characters come from the split list. -/
theorem mem_of_mem_splitWhen (p : Char → Bool) :
    ∀ (l : Str) (s : Str), s ∈ splitWhen p l → ∀ c ∈ s, c ∈ l
  | [], s, hs, c, hc => by
    simp [splitWhen] at hs
    subst hs
    simp at hc
  | a :: t, s, hs, c, hc => by
    simp only [splitWhen] at hs
    split at hs
    · rcases List.mem_cons.mp hs with h | h
      · subst h; simp at hc
      · exact List.mem_cons_of_mem _ (mem_of_mem_splitWhen p t s h c hc)
    · cases h : splitWhen p t with
      | nil => exact absurd h (splitWhen_ne_nil p t)
      | cons b r =>
        rw [h, List.modifyHead] at hs
        rcases List.mem_cons.mp hs with hs | hs
        · subst hs
          rcases List.mem_cons.mp hc with hc | hc
          · subst hc; exact List.mem_cons_self _ _
          · exact List.mem_cons_of_mem _
              (mem_of_mem_splitWhen p t b (h ▸ List.mem_cons_self b r) c hc)
        · exact List.mem_cons_of_mem _
            (mem_of_mem_splitWhen p t s (h ▸ List.mem_cons_of_mem b hs) c hc)

/-- No segment contains a separator character. -/
theorem not_sep_mem_splitWhen (p : Char → Bool) :
    ∀ (l : Str) (s : Str), s ∈ splitWhen p l → ∀ c ∈ s, p c = false
  | [], s, hs, c, hc => by
    simp [splitWhen] at hs
    subst hs
    simp at hc
  | a :: t, s, hs, c, hc => by
    simp only [splitWhen] at hs
    split at hs
    · rcases List.mem_cons.mp hs with h | h
      · subst h; simp at hc
      · exact not_sep_mem_splitWhen p t s h c hc
    · next hpa =>
      cases h : splitWhen p t with
      | nil => exact absurd h (splitWhen_ne_nil p t)
      | cons b r =>
        rw [h, List.modifyHead] at hs
        rcases List.mem_cons.mp hs with hs | hs
        · subst hs
          rcases List.mem_cons.mp hc with hc | hc
          · subst hc; simpa using hpa
          · exact not_sep_mem_splitWhen p t b (h ▸ List.mem_cons_self b r) c hc
        · exact not_sep_mem_splitWhen p t s (h ▸ List.mem_cons_of_mem b hs) c hc

/-- Splitting a separator-free list gives back a single segment. -/
theorem splitWhen_eq_single (p : Char → Bool) :
    ∀ l : Str, (∀ c ∈ l, p c = false) → splitWhen p l = [l]
  | [], _ => rfl
  | c :: t, h => by
    have hc : p c = false := h c (List.mem_cons_self _ _)
    simp only [splitWhen, hc, if_neg Bool.false_ne_true]
    rw [splitWhen_eq_single p t (fun d hd => h d (List.mem_cons_of_mem _ hd))]
    rfl

/-- Splitting a list that starts with a separator-free segment followed by a
separator peels off that segment. -/
theorem splitWhen_append_sep (p : Char → Bool) (d : Char) (hd : p d = true) :
    ∀ (s t : Str), (∀ c ∈ s, p c = false) → splitWhen p (s ++ d :: t) = s :: splitWhen p t
  | [], t, _ => by simp [splitWhen, hd]
  | c :: s', t, h => by
    have hc : p c = false := h c (List.mem_cons_self _ _)
    simp only [List.cons_append, List.append_eq, splitWhen, hc, if_neg Bool.false_ne_true]
    rw [splitWhen_append_sep p d hd s' t (fun e he => h e (List.mem_cons_of_mem _ he))]
    rfl

theorem joinDash_cons_cons (a b : Str) (r : List Str) :
    joinDash (a :: b :: r) = a ++ '-' :: joinDash (b :: r) := rfl

/-- Splitting a dash-join of dash-free segments gives back the segments. -/
theorem splitDash_joinDash :
    ∀ parts : List Str, parts ≠ [] → (∀ s ∈ parts, ∀ c ∈ s, (c == '-') = false) →
      splitDash (joinDash parts) = parts
  | [], h, _ => absurd rfl h
  | [p], _, h => by
    simpa [joinDash, splitDash] using
      splitWhen_eq_single _ p (h p (List.mem_cons_self _ _))
  | p :: q :: r, _, h => by
    rw [joinDash_cons_cons, splitDash,
      splitWhen_append_sep _ '-' (by simp) p _ (h p (List.mem_cons_self _ _))]
    rw [show splitWhen (fun c => c == '-') (joinDash (q :: r)) = splitDash (joinDash (q :: r))
      from rfl]
    rw [splitDash_joinDash (q :: r) (by simp)
      (fun s hs c hc => h s (List.mem_cons_of_mem _ hs) c hc)]

/-- Characters of a dash-join are dashes or characters of the segments. -/
theorem mem_joinDash :
    ∀ (parts : List Str) (c : Char), c ∈ joinDash parts → c = '-' ∨ ∃ s ∈ parts, c ∈ s
  | [], c, hc => by simp [joinDash] at hc
  | [p], c, hc => by
    right; exact ⟨p, List.mem_cons_self _ _, by simpa [joinDash] using hc⟩
  | p :: q :: r, c, hc => by
    rw [joinDash_cons_cons] at hc
    rcases List.mem_append.mp hc with hc | hc
    · right; exact ⟨p, List.mem_cons_self _ _, hc⟩
    · rcases hc with _ | hc
      · left; rfl
      · rcases mem_joinDash (q :: r) c (by assumption) with h | ⟨s, hs, hcs⟩
        · left; exact h
        · right; exact ⟨s, List.mem_cons_of_mem _ hs, hcs⟩

/-- A list whose elements are all left fixed by a `filterMap` function is left
fixed by the `filterMap`. -/
theorem filterMap_eq_self_of_mem {f : Char → Option Char} :
    ∀ l : Str, (∀ c ∈ l, f c = some c) → l.filterMap f = l
  | [], _ => rfl
  | c :: t, h => by
    have hc := h c (List.mem_cons_self _ _)
    rw [List.filterMap_cons, hc,
      filterMap_eq_self_of_mem t (fun d hd => h d (List.mem_cons_of_mem _ hd))]

/-- A list whose elements are all fixed points of `f` is fixed by `map f`. -/
theorem map_eq_self_of_mem {f : Char → Char} :
    ∀ l : Str, (∀ c ∈ l, f c = c) → l.map f = l
  | [], _ => rfl
  | c :: t, h => by
    rw [List.map_cons, h c (List.mem_cons_self _ _),
      map_eq_self_of_mem t (fun d hd => h d (List.mem_cons_of_mem _ hd))]

/- ### C3 / C8 development -/

/-- A delimiter character is never alphanumeric. -/
theorem dashChar_not_alnum (c : Char) (h : dashChar c = true) : c.isAlphanum = false := by
  simp only [dashChar, Bool.or_eq_true, beq_iff_eq] at h
  rcases h with ((h | h) | h) | h
  · simp only [Char.isWhitespace, Bool.or_eq_true, decide_eq_true_eq] at h
    rcases h with ((h | h) | h) | h <;> (subst h; decide)
  · subst h; decide
  · subst h; decide
  · subst h; decide

/-- `slugChar` written with the named delimiter set (definitional). -/
theorem slugChar_eq (c : Char) :
    slugChar c = if c.isAlphanum then some c else if dashChar c then some '-' else none := rfl

/-- The character classification commutes with splitting: classifying and then
splitting on `'-'` is splitting on the delimiter set and then deleting the
remaining non-alphanumeric characters inside each segment. -/
theorem splitDash_filterMap_slugChar :
    ∀ l : Str, splitDash (l.filterMap slugChar) =
      (splitWhen dashChar l).map (List.filter Char.isAlphanum)
  | [] => rfl
  | c :: t => by
    have ih := splitDash_filterMap_slugChar t
    by_cases hA : c.isAlphanum
    · have hs : slugChar c = some c := by rw [slugChar_eq, if_pos hA]
      have hd : dashChar c = false := by
        cases h : dashChar c
        · rfl
        · exact absurd hA (by simp [dashChar_not_alnum c h])
      have hne : (c == '-') = false := by
        cases h : c == '-'
        · rfl
        · exact absurd hA (by rw [show c = '-' from by simpa using h]; decide)
      cases hsw : splitWhen dashChar t with
      | nil => exact absurd hsw (splitWhen_ne_nil dashChar t)
      | cons b r =>
        rw [List.filterMap_cons, hs]
        show splitWhen (fun c => c == '-') (c :: t.filterMap slugChar) = _
        simp only [splitWhen, hne, if_neg Bool.false_ne_true, splitWhen, hd]
        rw [show splitWhen (fun c => c == '-') (t.filterMap slugChar)
            = splitDash (t.filterMap slugChar) from rfl, ih, hsw]
        simp [List.modifyHead, List.filter_cons, hA]
    · by_cases hD : dashChar c
      · have hs : slugChar c = some '-' := by rw [slugChar_eq, if_neg (by simp [hA]), if_pos hD]
        rw [List.filterMap_cons, hs]
        show splitWhen (fun c => c == '-') ('-' :: t.filterMap slugChar) = _
        simp only [splitWhen, hD, if_pos, beq_self_eq_true, if_true]
        rw [show splitWhen (fun c => c == '-') (t.filterMap slugChar)
            = splitDash (t.filterMap slugChar) from rfl, ih]
        rfl
      · have hs : slugChar c = none := by
          rw [slugChar_eq, if_neg (by simp [hA]), if_neg (by simp [hD])]
        rw [List.filterMap_cons, hs, ih]
        cases hsw : splitWhen dashChar t with
        | nil => exact absurd hsw (splitWhen_ne_nil dashChar t)
        | cons b r =>
          show _ = (splitWhen dashChar (c :: t)).map (List.filter Char.isAlphanum)
          simp only [splitWhen, hD, if_neg Bool.false_ne_true, hsw]
          simp [List.modifyHead, List.filter_cons, hA]

/-- Every character of a slug is a dash or a lowercase-fixed alphanumeric. -/
theorem slugify_mem_chars (s : Str) (c : Char) (hc : c ∈ slugify s) :
    c = '-' ∨ (c.isAlphanum = true ∧ c.toLower = c) := by
  unfold slugify at hc
  rcases mem_joinDash _ c hc with h | ⟨p, hp, hcp⟩
  · exact Or.inl h
  · have hp' : p ∈ splitDash ((s.map Char.toLower).filterMap slugChar) :=
      List.mem_of_mem_filter hp
    have hcl : c ∈ (s.map Char.toLower).filterMap slugChar :=
      mem_of_mem_splitWhen _ _ p hp' c hcp
    rcases List.mem_filterMap.mp hcl with ⟨a, ha, hsc⟩
    rcases List.mem_map.mp ha with ⟨b, _, hb⟩
    rw [slugChar_eq] at hsc
    by_cases hA : a.isAlphanum
    · rw [if_pos hA] at hsc
      have hca : c = a := by injection hsc with h; exact h.symm
      subst hca
      refine Or.inr ⟨hA, ?_⟩
      rw [← hb, char_toLower_idem]
    · rw [if_neg hA] at hsc
      by_cases hD : dashChar a
      · rw [if_pos hD] at hsc
        injection hsc with h
        exact Or.inl h.symm
      · rw [if_neg hD] at hsc
        exact absurd hsc (by simp)

/-- Re-classifying a slug leaves it unchanged. -/
theorem slugify_classify_fixed (s : Str) :
    ((slugify s).map Char.toLower).filterMap slugChar = slugify s := by
  have h1 : (slugify s).map Char.toLower = slugify s := by
    refine map_eq_self_of_mem _ (fun c hc => ?_)
    rcases slugify_mem_chars s c hc with h | ⟨_, h⟩
    · subst h; decide
    · exact h
  rw [h1]
  refine filterMap_eq_self_of_mem _ (fun c hc => ?_)
  rcases slugify_mem_chars s c hc with h | ⟨hA, _⟩
  · subst h; decide
  · rw [slugChar_eq, if_pos hA]

/-- C3 counterexample: at the input "a!b" the code's `slugify` deletes the
`'!'` and yields "ab", while the claimed algorithm (`claimSlugify`, which maps
every non-alphanumeric run to a single dash) yields "a-b". -/
theorem c3_counterexample :
    slugify ['a', '!', 'b'] ≠ claimSlugify ['a', '!', 'b'] ∧
    slugify ['a', '!', 'b'] = ['a', 'b'] ∧
    claimSlugify ['a', '!', 'b'] = ['a', '-', 'b'] := by
  refine ⟨?_, ?_, ?_⟩ <;> decide

/-- C3 (amended): for every string, `slugify` equals the amended algorithm:
lowercase; characters in (whitespace, `'-'`, `'_'`, `'.'`) delimit segments;
all other non-alphanumeric characters are deleted; empty segments are dropped
and the remaining segments joined by single dashes (which collapses delimiter
runs and trims leading/trailing dashes). -/
theorem c3_slugify_amended : ∀ text : Str, slugify text = amendedSlugify text := by
  intro text
  unfold slugify amendedSlugify
  rw [splitDash_filterMap_slugChar]

/-- C8: `slugify` is idempotent. -/
theorem c8_slugify_idempotent : ∀ s : Str, slugify (slugify s) = slugify s := by
  intro s
  by_cases hnil : (splitDash ((s.map Char.toLower).filterMap slugChar)).filter
      (fun s => !s.isEmpty) = []
  · have hout : slugify s = [] := by
      unfold slugify
      rw [hnil]
      rfl
    rw [hout]
    rfl
  · set parts := (splitDash ((s.map Char.toLower).filterMap slugChar)).filter
      (fun s => !s.isEmpty) with hparts
    have hout : slugify s = joinDash parts := rfl
    have hdashfree : ∀ p ∈ parts, ∀ c ∈ p, (c == '-') = false := by
      intro p hp c hc
      exact not_sep_mem_splitWhen _ _ p (List.mem_of_mem_filter hp) c hc
    have hsplit : splitDash (joinDash parts) = parts :=
      splitDash_joinDash parts hnil hdashfree
    have hfilter : parts.filter (fun t => !t.isEmpty) = parts := by
      refine List.filter_eq_self.mpr (fun p hp => ?_)
      have hp' : p ∈ (splitDash ((s.map Char.toLower).filterMap slugChar)).filter
          (fun t => !t.isEmpty) := hparts ▸ hp
      exact (List.mem_filter.mp hp').2
    calc slugify (slugify s)
        = joinDash ((splitDash (((slugify s).map Char.toLower).filterMap slugChar)).filter
            (fun t => !t.isEmpty)) := rfl
      _ = joinDash ((splitDash (slugify s)).filter (fun t => !t.isEmpty)) := by
            rw [slugify_classify_fixed s]
      _ = joinDash ((splitDash (joinDash parts)).filter (fun t => !t.isEmpty)) := by
            rw [hout]
      _ = joinDash (parts.filter (fun t => !t.isEmpty)) := by rw [hsplit]
      _ = joinDash parts := by rw [hfilter]
      _ = slugify s := hout.symm

/- ### Tag matching utilities (crates/dioxus-mdx/src/parser/utils.rs)

    pub(super) fn find_closing_tag(content: &str, tag_name: &str) -> Option<usize> {
        let open_tag = format!("<{}", tag_name);
        let close_tag = format!("</{}>", tag_name);
        let mut depth = 1;
        let mut pos = 0;
        while depth > 0 && pos < content.len() {
            let next_open = content[pos..].find(&open_tag).map(|i| i + pos);
            let next_close = content[pos..].find(&close_tag).map(|i| i + pos);
            match (next_open, next_close) {
                (Some(o), Some(c)) if o < c => { depth += 1; pos = o + open_tag.len(); }
                (_, Some(c)) => {
                    depth -= 1;
                    if depth == 0 { return Some(c); }
                    pos = c + close_tag.len();
                }
                _ => return None,
            }
        }
        None
    }
-/

/-- `str::find(pat)`: index of the first occurrence of `pat`, scanning left to
right. -/
def strFind (hay pat : Str) : Option Nat :=
  if pat.isPrefixOf hay then some 0
  else
    match hay with
    | [] => none
    | _ :: t => (strFind t pat).map (· + 1)

theorem strFind_of_isPrefixOf {hay pat : Str} (h : pat.isPrefixOf hay) :
    strFind hay pat = some 0 := by
  rw [strFind.eq_def, if_pos h]

theorem strFind_cons_neg {c : Char} {hay pat : Str} (h : ¬pat.isPrefixOf (c :: hay)) :
    strFind (c :: hay) pat = (strFind hay pat).map (· + 1) := by
  rw [strFind.eq_def, if_neg h]

/-- A found index really is an occurrence. -/
theorem strFind_sound : ∀ (hay pat : Str) (i : Nat),
    strFind hay pat = some i → pat.isPrefixOf (hay.drop i)
  | hay, pat, i => by
    intro h
    rw [strFind.eq_def] at h
    split at h
    · next hp =>
      injection h with h
      subst h
      simpa using hp
    · next hp =>
      match hay, h with
      | c :: t, h =>
        rcases Option.map_eq_some'.mp h with ⟨j, hj, hji⟩
        subst hji
        simpa using strFind_sound t pat j hj

/-- A literal occurrence guarantees `str::find` succeeds. -/
theorem strFind_isSome_append : ∀ (a pat b : Str), (strFind (a ++ (pat ++ b)) pat).isSome
  | [], pat, b => by
    rw [List.nil_append,
      strFind_of_isPrefixOf (List.isPrefixOf_iff_prefix.mpr (List.prefix_append pat b))]
    rfl
  | c :: a, pat, b => by
    by_cases hp : pat.isPrefixOf (c :: a ++ (pat ++ b))
    · rw [List.cons_append, strFind_of_isPrefixOf (by simpa using hp)]
      rfl
    · rw [List.cons_append, strFind_cons_neg (by simpa using hp)]
      have := strFind_isSome_append a pat b
      cases hs : strFind (a ++ (pat ++ b)) pat with
      | none => rw [hs] at this; exact absurd this (by simp)
      | some j => simp

/-- The open-tag search pattern built by `find_closing_tag`: `"<" + tag_name`. -/
def openPat (name : Str) : Str := '<' :: name

/-- The close-tag pattern (also the literal closing-tag text):
`"</" + tag_name + ">"`. -/
def closePat (name : Str) : Str := '<' :: '/' :: (name ++ ['>'])

/-- The literal opening-tag text `"<" + tag_name + ">"`. -/
def openTagS (name : Str) : Str := '<' :: name ++ ['>']

/-- The while loop of `find_closing_tag`, with `pos` the absolute scan
position; `content[pos..].find(p)` is `strFind (content.drop pos) p`, whose
result the code maps back by `+ pos`. -/
def findLoop (content name : Str) (depth pos : Nat) : Option Nat :=
  if 0 < depth ∧ pos < content.length then
    match strFind (content.drop pos) (openPat name), strFind (content.drop pos) (closePat name) with
    | some o, some c =>
      if o < c then findLoop content name (depth + 1) (pos + (o + (openPat name).length))
      else if depth = 1 then some (pos + c)
      else findLoop content name (depth - 1) (pos + (c + (closePat name).length))
    | none, some c =>
      if depth = 1 then some (pos + c)
      else findLoop content name (depth - 1) (pos + (c + (closePat name).length))
    | _, none => none
  else none
termination_by content.length - pos
decreasing_by
  all_goals simp only [openPat, closePat, List.length_cons]
  all_goals omega

/-- `find_closing_tag` from `parser/utils.rs`: depth starts at 1 (the caller
has already consumed the outer opening tag), scanning starts at 0. -/
def find_closing_tag (content tag_name : Str) : Option Nat :=
  findLoop content tag_name 1 0

/-- The same loop phrased on the remaining slice, returning a relative offset. -/
def findLoopRel (name : Str) (rem : Str) (depth : Nat) : Option Nat :=
  if 0 < depth ∧ rem ≠ [] then
    match strFind rem (openPat name), strFind rem (closePat name) with
    | some o, some c =>
      if o < c then
        (findLoopRel name (rem.drop (o + (openPat name).length)) (depth + 1)).map
          (· + (o + (openPat name).length))
      else if depth = 1 then some c
      else
        (findLoopRel name (rem.drop (c + (closePat name).length)) (depth - 1)).map
          (· + (c + (closePat name).length))
    | none, some c =>
      if depth = 1 then some c
      else
        (findLoopRel name (rem.drop (c + (closePat name).length)) (depth - 1)).map
          (· + (c + (closePat name).length))
    | _, none => none
  else none
termination_by rem.length
decreasing_by
  all_goals simp only [openPat, closePat, List.length_cons, List.length_drop]
  all_goals have hlen : 0 < rem.length :=
    List.length_pos.mpr (And.right (by assumption : 0 < depth ∧ rem ≠ []))
  all_goals omega

theorem option_map_add_add (X : Option Nat) (a b : Nat) :
    (X.map (· + a)).map (· + b) = X.map (· + (b + a)) := by
  cases X with
  | none => rfl
  | some x => simp; omega

/-- The absolute-position loop equals the relative-slice loop shifted by the
scan position. -/
theorem findLoop_eq_rel (content name : Str) :
    ∀ (fuel depth pos : Nat), content.length - pos ≤ fuel →
      findLoop content name depth pos = (findLoopRel name (content.drop pos) depth).map (· + pos) := by
  intro fuel
  induction fuel with
  | zero =>
    intro depth pos hf
    have hrem : content.drop pos = [] := by
      rw [List.drop_eq_nil_iff]; omega
    rw [hrem, findLoop.eq_def, findLoopRel.eq_def]
    rw [if_neg (fun h => by omega), if_neg (fun h => h.2 rfl)]
    rfl
  | succ fuel ih =>
    intro depth pos hf
    by_cases hg : 0 < depth ∧ pos < content.length
    · have hrem : content.drop pos ≠ [] := by
        rw [Ne, List.drop_eq_nil_iff]; omega
      rw [findLoop.eq_def, findLoopRel.eq_def, if_pos hg, if_pos ⟨hg.1, hrem⟩]
      have hstep : ∀ k, 1 ≤ k → content.length - (pos + k) ≤ fuel := by
        intro k hk; omega
      cases hO : strFind (content.drop pos) (openPat name) with
      | none =>
        cases hC : strFind (content.drop pos) (closePat name) with
        | none => rfl
        | some c =>
          simp only
          by_cases hd : depth = 1
          · rw [if_pos hd, if_pos hd]
            simp [Nat.add_comm]
          · rw [if_neg hd, if_neg hd]
            rw [ih (depth - 1) (pos + (c + (closePat name).length))
              (hstep _ (by simp [closePat]; omega))]
            rw [List.drop_drop]
            rw [option_map_add_add]
      | some o =>
        cases hC : strFind (content.drop pos) (closePat name) with
        | none => rfl
        | some c =>
          simp only
          by_cases ho : o < c
          · rw [if_pos ho, if_pos ho]
            rw [ih (depth + 1) (pos + (o + (openPat name).length))
              (hstep _ (by simp [openPat]; omega))]
            rw [List.drop_drop]
            rw [option_map_add_add]
          · rw [if_neg ho, if_neg ho]
            by_cases hd : depth = 1
            · rw [if_pos hd, if_pos hd]
              simp [Nat.add_comm]
            · rw [if_neg hd, if_neg hd]
              rw [ih (depth - 1) (pos + (c + (closePat name).length))
                (hstep _ (by simp [closePat]; omega))]
              rw [List.drop_drop]
              rw [option_map_add_add]
    · have hrem : ¬(0 < depth ∧ content.drop pos ≠ []) := by
        intro h
        exact hg ⟨h.1, by
          have := h.2
          rw [Ne, List.drop_eq_nil_iff] at this
          omega⟩
      rw [findLoop.eq_def, findLoopRel.eq_def, if_neg hg, if_neg hrem]
      rfl

/-- `find_closing_tag` in terms of the relative loop. -/
theorem find_closing_tag_eq_rel (content name : Str) :
    find_closing_tag content name = findLoopRel name content 1 := by
  rw [find_closing_tag, findLoop_eq_rel content name (content.length - 0) 1 0 (Nat.le_refl _)]
  rw [List.drop_zero]
  cases findLoopRel name content 1 <;> simp

/-- Fully nested tag text: `nestS T n` is n nested `<T>...</T>` pairs. -/
def nestS (name : Str) : Nat → Str
  | 0 => []
  | n + 1 => openTagS name ++ (nestS name n ++ closePat name)

theorem openPat_length (name : Str) : (openPat name).length = name.length + 1 := by
  simp [openPat]

theorem closePat_length (name : Str) : (closePat name).length = name.length + 3 := by
  simp [closePat]

theorem openTagS_length (name : Str) : (openTagS name).length = name.length + 2 := by
  simp [openTagS]

theorem nestS_succ_length (name : Str) (n : Nat) :
    (nestS name (n + 1)).length =
      (nestS name n).length + 2 * name.length + 5 := by
  simp [nestS, openTagS_length, closePat_length]
  omega

/-- The closing pattern `"</T>"` never begins inside the opening-tag text:
`"/T>"` is not a prefix of `"T>" ++ rest`. -/
theorem slash_name_no_open_prefix_match (name : Str) :
    ∀ rest : Str, ('/' :: (name ++ ['>'])).isPrefixOf (name ++ '>' :: rest) = false := by
  induction name with
  | nil => intro rest; rfl
  | cons c name ih =>
    intro rest
    by_cases hc : c = '/'
    · subst hc
      show (('/' == '/') && (('/' :: name ++ ['>']).isPrefixOf (name ++ '>' :: rest))) = false
      simp [ih rest]
    · show ((('/' : Char) == c) && _) = false
      have : (('/' : Char) == c) = false := by
        simp [hc]
        exact fun h => hc h.symm
      rw [this, Bool.false_and]

/-- `closePat` is not a prefix of an opening tag followed by anything. -/
theorem closePat_not_prefix_openTagS (name rest : Str) :
    (closePat name).isPrefixOf (openTagS name ++ rest) = false := by
  have h : openTagS name ++ rest = '<' :: (name ++ '>' :: rest) := by
    simp [openTagS]
  rw [h]
  show ((('<' : Char) == '<') && (('/' :: (name ++ ['>'])).isPrefixOf (name ++ '>' :: rest))) = false
  rw [slash_name_no_open_prefix_match name rest, Bool.and_false]

/-- `openPat` is a prefix of an opening tag followed by anything. -/
theorem openPat_isPrefixOf_openTagS (name rest : Str) :
    (openPat name).isPrefixOf (openTagS name ++ rest) = true := by
  have h : openTagS name ++ rest = '<' :: (name ++ '>' :: rest) := by
    simp [openTagS]
  rw [h]
  exact List.isPrefixOf_iff_prefix.mpr ⟨'>' :: rest, by simp [openPat]⟩

theorem strFind_gt_open (name X : Str) :
    strFind ('>' :: X) (openPat name) = (strFind X (openPat name)).map (· + 1) :=
  strFind_cons_neg (fun h => Bool.noConfusion (show false = true from h))

theorem strFind_gt_close (name X : Str) :
    strFind ('>' :: X) (closePat name) = (strFind X (closePat name)).map (· + 1) :=
  strFind_cons_neg (fun h => Bool.noConfusion (show false = true from h))

theorem findLoopRel_nil (name : Str) (depth : Nat) : findLoopRel name [] depth = none := by
  rw [findLoopRel.eq_def, if_neg (fun h => h.2 rfl)]

/-- Scanning a slice that begins with the closing tag at depth 1 returns 0. -/
theorem findLoopRel_close_head_one (name rest : Str) :
    findLoopRel name (closePat name ++ rest) 1 = some 0 := by
  rw [findLoopRel.eq_def]
  rw [if_pos ⟨Nat.one_pos, by simp [closePat]⟩]
  have hC : strFind (closePat name ++ rest) (closePat name) = some 0 :=
    strFind_of_isPrefixOf (List.isPrefixOf_iff_prefix.mpr (List.prefix_append _ _))
  cases hO : strFind (closePat name ++ rest) (openPat name) with
  | none =>
    simp [hO, hC]
  | some o =>
    simp only [hO, hC]
    rw [if_neg (Nat.not_lt_zero o)]
    rfl

/-- Scanning a slice that begins with the closing tag at depth ≥ 2 consumes
the closing tag and continues one level up. -/
theorem findLoopRel_close_head_deep (name rest : Str) (d : Nat) :
    findLoopRel name (closePat name ++ rest) (d + 2) =
      (findLoopRel name rest (d + 1)).map (· + (closePat name).length) := by
  rw [findLoopRel.eq_def]
  rw [if_pos ⟨by omega, by simp [closePat]⟩]
  have hC : strFind (closePat name ++ rest) (closePat name) = some 0 :=
    strFind_of_isPrefixOf (List.isPrefixOf_iff_prefix.mpr (List.prefix_append _ _))
  have hdrop : (closePat name ++ rest).drop (0 + (closePat name).length) = rest := by
    rw [Nat.zero_add, List.drop_left]
  cases hO : strFind (closePat name ++ rest) (openPat name) with
  | none =>
    simp only [hO, hC]
    rw [if_neg (by omega), hdrop]
    rw [show d + 2 - 1 = d + 1 from by omega, Nat.zero_add]
  | some o =>
    simp only [hO, hC]
    rw [if_neg (Nat.not_lt_zero o), if_neg (by omega), hdrop]
    rw [show d + 2 - 1 = d + 1 from by omega, Nat.zero_add]

/-- Core invariant of the nested family: a pending `'>'` followed by `nestS n`
and a closing tag, at depth ≥ 2, consumes everything up to and including that
closing tag and continues at one lower depth. -/
theorem findLoopRel_nest_deep (name : Str) :
    ∀ (n : Nat) (rest : Str) (d : Nat),
      findLoopRel name ('>' :: (nestS name n ++ (closePat name ++ rest))) (d + 2) =
        (findLoopRel name rest (d + 1)).map
          (· + (1 + (nestS name n).length + (closePat name).length)) := by
  intro n
  induction n with
  | zero =>
    intro rest d
    simp only [nestS, List.nil_append, List.length_nil]
    rw [findLoopRel.eq_def]
    rw [if_pos ⟨by omega, by simp⟩]
    have hC : strFind ('>' :: (closePat name ++ rest)) (closePat name) = some 1 := by
      rw [strFind_gt_close,
        strFind_of_isPrefixOf (List.isPrefixOf_iff_prefix.mpr (List.prefix_append _ _))]
      rfl
    have hdrop : ('>' :: (closePat name ++ rest)).drop (1 + (closePat name).length) = rest := by
      rw [Nat.add_comm, List.drop_succ_cons, List.drop_left]
    cases hO : strFind ('>' :: (closePat name ++ rest)) (openPat name) with
    | none =>
      simp only [hO, hC]
      rw [if_neg (by omega), hdrop, show d + 2 - 1 = d + 1 from by omega]
    | some o =>
      have ho1 : 1 ≤ o := by
        rw [strFind_gt_open] at hO
        rcases Option.map_eq_some'.mp hO with ⟨i, _, hi⟩
        omega
      simp only [hO, hC]
      rw [if_neg (by omega), if_neg (by omega), hdrop, show d + 2 - 1 = d + 1 from by omega]
  | succ n ih =>
    intro rest d
    have hshape : nestS name (n + 1) ++ (closePat name ++ rest) =
        openTagS name ++ (nestS name n ++ (closePat name ++ (closePat name ++ rest))) := by
      simp [nestS, List.append_assoc]
    rw [hshape]
    rw [findLoopRel.eq_def]
    rw [if_pos ⟨by omega, by simp⟩]
    have hO : strFind ('>' :: (openTagS name ++ (nestS name n ++ (closePat name ++
        (closePat name ++ rest))))) (openPat name) = some 1 := by
      rw [strFind_gt_open,
        strFind_of_isPrefixOf (openPat_isPrefixOf_openTagS name _)]
      rfl
    have hex : (strFind (openTagS name ++ (nestS name n ++ (closePat name ++
        (closePat name ++ rest)))) (closePat name)).isSome := by
      have := strFind_isSome_append (openTagS name ++ nestS name n) (closePat name)
        (closePat name ++ rest)
      simpa [List.append_assoc] using this
    rcases Option.isSome_iff_exists.mp hex with ⟨c1, hc1⟩
    have hc1pos : 1 ≤ c1 := by
      rcases Nat.eq_zero_or_pos c1 with h0 | h; swap
      · omega
      · subst h0
        have := strFind_sound _ _ _ hc1
        rw [List.drop_zero] at this
        rw [closePat_not_prefix_openTagS name _] at this
        exact absurd this (by simp)
    have hC : strFind ('>' :: (openTagS name ++ (nestS name n ++ (closePat name ++
        (closePat name ++ rest))))) (closePat name) = some (c1 + 1) := by
      rw [strFind_gt_close, hc1]
      rfl
    have hdrop : ('>' :: (openTagS name ++ (nestS name n ++ (closePat name ++
        (closePat name ++ rest))))).drop (1 + (openPat name).length) =
        '>' :: (nestS name n ++ (closePat name ++ (closePat name ++ rest))) := by
      rw [Nat.add_comm, List.drop_succ_cons, openPat_length]
      rw [show openTagS name ++ (nestS name n ++ (closePat name ++ (closePat name ++ rest))) =
        ('<' :: name) ++ ('>' :: (nestS name n ++ (closePat name ++ (closePat name ++ rest))))
        from by simp [openTagS]]
      exact List.drop_left' (by simp)
    simp only [hO, hC]
    rw [if_pos (by omega), hdrop]
    rw [show d + 2 + 1 = (d + 1) + 2 from by omega]
    rw [ih (closePat name ++ rest) (d + 1)]
    rw [show d + 1 + 1 = d + 2 from by omega]
    rw [findLoopRel_close_head_deep name rest d]
    cases findLoopRel name rest (d + 1) with
    | none => simp
    | some x =>
      simp only [Option.map_some']
      congr 1
      rw [nestS_succ_length, openPat_length, closePat_length]
      omega

/-- Depth-1 variant: the scan returns the offset of the closing tag that
follows the pending content. -/
theorem findLoopRel_nest_one (name : Str) :
    ∀ (n : Nat) (rest : Str),
      findLoopRel name ('>' :: (nestS name n ++ (closePat name ++ rest))) 1 =
        some (1 + (nestS name n).length) := by
  intro n
  cases n with
  | zero =>
    intro rest
    simp only [nestS, List.nil_append, List.length_nil]
    rw [findLoopRel.eq_def]
    rw [if_pos ⟨by omega, by simp⟩]
    have hC : strFind ('>' :: (closePat name ++ rest)) (closePat name) = some 1 := by
      rw [strFind_gt_close,
        strFind_of_isPrefixOf (List.isPrefixOf_iff_prefix.mpr (List.prefix_append _ _))]
      rfl
    cases hO : strFind ('>' :: (closePat name ++ rest)) (openPat name) with
    | none => simp [hO, hC]
    | some o =>
      have ho1 : 1 ≤ o := by
        rw [strFind_gt_open] at hO
        rcases Option.map_eq_some'.mp hO with ⟨i, _, hi⟩
        omega
      simp only [hO, hC]
      rw [if_neg (by omega)]
      rfl
  | succ n =>
    intro rest
    have hshape : nestS name (n + 1) ++ (closePat name ++ rest) =
        openTagS name ++ (nestS name n ++ (closePat name ++ (closePat name ++ rest))) := by
      simp [nestS, List.append_assoc]
    rw [hshape]
    rw [findLoopRel.eq_def]
    rw [if_pos ⟨by omega, by simp⟩]
    have hO : strFind ('>' :: (openTagS name ++ (nestS name n ++ (closePat name ++
        (closePat name ++ rest))))) (openPat name) = some 1 := by
      rw [strFind_gt_open,
        strFind_of_isPrefixOf (openPat_isPrefixOf_openTagS name _)]
      rfl
    have hex : (strFind (openTagS name ++ (nestS name n ++ (closePat name ++
        (closePat name ++ rest)))) (closePat name)).isSome := by
      have := strFind_isSome_append (openTagS name ++ nestS name n) (closePat name)
        (closePat name ++ rest)
      simpa [List.append_assoc] using this
    rcases Option.isSome_iff_exists.mp hex with ⟨c1, hc1⟩
    have hc1pos : 1 ≤ c1 := by
      rcases Nat.eq_zero_or_pos c1 with h0 | h; swap
      · omega
      · subst h0
        have := strFind_sound _ _ _ hc1
        rw [List.drop_zero] at this
        rw [closePat_not_prefix_openTagS name _] at this
        exact absurd this (by simp)
    have hC : strFind ('>' :: (openTagS name ++ (nestS name n ++ (closePat name ++
        (closePat name ++ rest))))) (closePat name) = some (c1 + 1) := by
      rw [strFind_gt_close, hc1]
      rfl
    have hdrop : ('>' :: (openTagS name ++ (nestS name n ++ (closePat name ++
        (closePat name ++ rest))))).drop (1 + (openPat name).length) =
        '>' :: (nestS name n ++ (closePat name ++ (closePat name ++ rest))) := by
      rw [Nat.add_comm, List.drop_succ_cons, openPat_length]
      rw [show openTagS name ++ (nestS name n ++ (closePat name ++ (closePat name ++ rest))) =
        ('<' :: name) ++ ('>' :: (nestS name n ++ (closePat name ++ (closePat name ++ rest))))
        from by simp [openTagS]]
      exact List.drop_left' (by simp)
    simp only [hO, hC]
    rw [if_pos (by omega), hdrop]
    rw [show (1 : Nat) + 1 = 0 + 2 from rfl]
    rw [findLoopRel_nest_deep name n (closePat name ++ rest) 0]
    rw [show (0 : Nat) + 1 = 1 from rfl]
    rw [findLoopRel_close_head_one name rest]
    simp only [Option.map_some']
    congr 1
    rw [nestS_succ_length, openPat_length, closePat_length]
    omega

/-- Starting at the top of the nested family, the scan finds the final closing
tag at the offset just past the nesting. -/
theorem findLoopRel_nest_root (name : Str) :
    ∀ (n : Nat) (suffix : Str),
      findLoopRel name (nestS name n ++ (closePat name ++ suffix)) 1 =
        some (nestS name n).length := by
  intro n
  cases n with
  | zero =>
    intro suffix
    simp only [nestS, List.nil_append, List.length_nil]
    exact findLoopRel_close_head_one name suffix
  | succ n =>
    intro suffix
    have hshape : nestS name (n + 1) ++ (closePat name ++ suffix) =
        openTagS name ++ (nestS name n ++ (closePat name ++ (closePat name ++ suffix))) := by
      simp [nestS, List.append_assoc]
    rw [hshape]
    rw [findLoopRel.eq_def]
    rw [if_pos ⟨by omega, by simp [openTagS]⟩]
    have hO : strFind (openTagS name ++ (nestS name n ++ (closePat name ++
        (closePat name ++ suffix)))) (openPat name) = some 0 :=
      strFind_of_isPrefixOf (openPat_isPrefixOf_openTagS name _)
    have hex : (strFind (openTagS name ++ (nestS name n ++ (closePat name ++
        (closePat name ++ suffix)))) (closePat name)).isSome := by
      have := strFind_isSome_append (openTagS name ++ nestS name n) (closePat name)
        (closePat name ++ suffix)
      simpa [List.append_assoc] using this
    rcases Option.isSome_iff_exists.mp hex with ⟨c1, hc1⟩
    have hc1pos : 1 ≤ c1 := by
      rcases Nat.eq_zero_or_pos c1 with h0 | h; swap
      · omega
      · subst h0
        have := strFind_sound _ _ _ hc1
        rw [List.drop_zero] at this
        rw [closePat_not_prefix_openTagS name _] at this
        exact absurd this (by simp)
    have hdrop : (openTagS name ++ (nestS name n ++ (closePat name ++
        (closePat name ++ suffix)))).drop (0 + (openPat name).length) =
        '>' :: (nestS name n ++ (closePat name ++ (closePat name ++ suffix))) := by
      rw [Nat.zero_add, openPat_length]
      rw [show openTagS name ++ (nestS name n ++ (closePat name ++ (closePat name ++ suffix))) =
        ('<' :: name) ++ ('>' :: (nestS name n ++ (closePat name ++ (closePat name ++ suffix))))
        from by simp [openTagS]]
      exact List.drop_left' (by simp)
    simp only [hO, hc1]
    rw [if_pos (by omega), hdrop]
    rw [show (1 : Nat) + 1 = 0 + 2 from rfl]
    rw [findLoopRel_nest_deep name n (closePat name ++ suffix) 0]
    rw [show (0 : Nat) + 1 = 1 from rfl]
    rw [findLoopRel_close_head_one name suffix]
    simp only [Option.map_some']
    congr 1
    rw [nestS_succ_length, openPat_length, closePat_length]
    omega

/-- Without the extra closing tag the scan never returns to depth 0: the
balanced nesting alone is unbalanced relative to the already-consumed outer
opening tag, and the loop returns `None`. -/
theorem findLoopRel_nest_unbalanced (name : Str) :
    ∀ (n d : Nat), findLoopRel name (nestS name n) (d + 1) = none := by
  intro n
  cases n with
  | zero =>
    intro d
    exact findLoopRel_nil name (d + 1)
  | succ n =>
    intro d
    have hshape : nestS name (n + 1) =
        openTagS name ++ (nestS name n ++ (closePat name ++ [])) := by
      simp [nestS, List.append_assoc]
    rw [hshape]
    rw [findLoopRel.eq_def]
    rw [if_pos ⟨by omega, by simp [openTagS]⟩]
    have hO : strFind (openTagS name ++ (nestS name n ++ (closePat name ++ [])))
        (openPat name) = some 0 :=
      strFind_of_isPrefixOf (openPat_isPrefixOf_openTagS name _)
    have hex : (strFind (openTagS name ++ (nestS name n ++ (closePat name ++ [])))
        (closePat name)).isSome := by
      have := strFind_isSome_append (openTagS name ++ nestS name n) (closePat name) []
      simpa [List.append_assoc] using this
    rcases Option.isSome_iff_exists.mp hex with ⟨c1, hc1⟩
    have hc1pos : 1 ≤ c1 := by
      rcases Nat.eq_zero_or_pos c1 with h0 | h; swap
      · omega
      · subst h0
        have := strFind_sound _ _ _ hc1
        rw [List.drop_zero] at this
        rw [closePat_not_prefix_openTagS name _] at this
        exact absurd this (by simp)
    have hdrop : (openTagS name ++ (nestS name n ++ (closePat name ++ []))).drop
        (0 + (openPat name).length) =
        '>' :: (nestS name n ++ (closePat name ++ [])) := by
      rw [Nat.zero_add, openPat_length]
      rw [show openTagS name ++ (nestS name n ++ (closePat name ++ [])) =
        ('<' :: name) ++ ('>' :: (nestS name n ++ (closePat name ++ [])))
        from by simp [openTagS]]
      exact List.drop_left' (by simp)
    simp only [hO, hc1]
    rw [if_pos (by omega), hdrop]
    rw [show d + 1 + 1 = d + 2 from rfl]
    rw [findLoopRel_nest_deep name n [] d]
    rw [findLoopRel_nil name (d + 1)]
    rfl

/-- C4: for every tag name T, every n and every suffix, `find_closing_tag`
applied to n nested `&lt;T&gt;...&lt;/T&gt;` pairs followed by a trailing `</T>` and an
arbitrary suffix returns the byte offset of that final closing tag (the one
matching the outermost, already-consumed open), not of an inner one; and on
the balanced nesting alone (no trailing close for the outer open) it returns
`None`. -/
theorem c4_find_closing_tag_nested (T : Str) (n : Nat) (suffix : Str) :
    find_closing_tag (nestS T n ++ (closePat T ++ suffix)) T = some (nestS T n).length ∧
    find_closing_tag (nestS T n) T = none := by
  constructor
  · rw [find_closing_tag_eq_rel]
    exact findLoopRel_nest_root T n suffix
  · rw [find_closing_tag_eq_rel]
    exact findLoopRel_nest_unbalanced T n 0

/- ### Frontmatter extraction (crates/dioxus-mdx/src/parser/frontmatter.rs)

    pub fn extract_frontmatter(content: &str) -> (DocFrontmatter, &str) {
        let content = content.trim();
        if !content.starts_with("---") {
            return (DocFrontmatter::default(), content);
        }
        let after_first_delim = &content[3..];
        if let Some(end_idx) = after_first_delim.find("\n---") {
            let yaml_content = &after_first_delim[..end_idx].trim();
            let remaining = &after_first_delim[end_idx + 4..].trim_start();
            match serde_yaml::from_str(yaml_content) {
                Ok(fm) => (fm, remaining),
                Err(e) => { eprintln!(...); (DocFrontmatter::default(), content) }
            }
        } else {
            (DocFrontmatter::default(), content)
        }
    }

The serde_yaml deserialisation is external library code and is modelled as the
function parameter `parseYaml` (`None` models `Err`). -/

/-- `str::trim_start()`. -/
def trimStart (s : Str) : Str := s.dropWhile Char.isWhitespace

/-- `str::trim_end()`. -/
def trimEnd (s : Str) : Str := (s.reverse.dropWhile Char.isWhitespace).reverse

/-- `str::trim()`. -/
def trimS (s : Str) : Str := trimEnd (trimStart s)

/-- `DocFrontmatter` from `parser/types.rs`. -/
structure DocFrontmatter where
  title : Str
  description : Option Str
  sidebar_title : Option Str
  icon : Option Str
deriving DecidableEq

/-- `DocFrontmatter::default()`: empty title, absent optional fields. -/
def defaultFrontmatter : DocFrontmatter :=
  { title := [], description := none, sidebar_title := none, icon := none }

/-- `extract_frontmatter` from `parser/frontmatter.rs`. -/
def extract_frontmatter (parseYaml : Str → Option DocFrontmatter) (content : Str) :
    DocFrontmatter × Str :=
  let content := trimS content
  if ("---".data).isPrefixOf content then
    let after_first_delim := content.drop 3
    match strFind after_first_delim ("\n---".data) with
    | some end_idx =>
      let yaml_content := trimS (after_first_delim.take end_idx)
      let remaining := trimStart (after_first_delim.drop (end_idx + 4))
      match parseYaml yaml_content with
      | some fm => (fm, remaining)
      | none => (defaultFrontmatter, content)
    | none => (defaultFrontmatter, content)
  else (defaultFrontmatter, content)

/-- C2 counterexample: the input `"--- "` opens with a `---` delimiter and has
no closing delimiter, but `extract_frontmatter` returns the *trimmed* text
`"---"`, not the entire original input `"--- "`. -/
theorem c2_counterexample :
    extract_frontmatter (fun _ => none) "--- ".data = (defaultFrontmatter, "---".data) ∧
    "---".data ≠ "--- ".data := by
  constructor
  · decide
  · decide

/-- C2 (amended): whenever the trimmed input opens with a `---` delimiter and
either no closing `"\n---"` delimiter exists or the YAML between the
delimiters fails to parse, `extract_frontmatter` returns the default
frontmatter together with the whitespace-trimmed original text (not the
post-delimiter remainder, and not the raw original text). -/
theorem c2_extract_frontmatter_amended :
    ∀ (parseYaml : Str → Option DocFrontmatter) (content : Str),
      ("---".data).isPrefixOf (trimS content) →
      (∀ i, strFind ((trimS content).drop 3) ("\n---".data) = some i →
        parseYaml (trimS (((trimS content).drop 3).take i)) = none) →
      extract_frontmatter parseYaml content = (defaultFrontmatter, trimS content) := by
  intro py content h1 h2
  unfold extract_frontmatter
  simp only
  rw [if_pos h1]
  cases hf : strFind ((trimS content).drop 3) ("\n---".data) with
  | none => rfl
  | some i =>
    simp only [h2 i hf]

/-- Witness for the amended C2 theorem at a concrete malformed document. -/
theorem c2_amended_witness :
    extract_frontmatter (fun _ => none) "---\na\n--- b".data =
      (defaultFrontmatter, trimS "---\na\n--- b".data) :=
  c2_extract_frontmatter_amended (fun _ => none) "---\na\n--- b".data
    (by decide) (fun _ _ => rfl)

/- ### OpenAPI internal types (crates/dioxus-mdx/src/parser/openapi_types.rs)

Strings of this value model are Lean `String`s (no index arithmetic is needed
here).  `serde_json::Value` is modelled by `Json`; the only floating-point
value the code ever produces is the literal `0.0` for `Number` schemas, which
is modelled by the dedicated constructor `Json.dnum`. -/

inductive Json where
  | null
  | bool (b : Bool)
  | num (n : Int)
  | dnum (n : Int)
  | str (s : String)
  | arr (elems : List Json)
  | obj (fields : List (String × Json))

/-- `SchemaType` from `openapi_types.rs`. -/
inductive SchemaType where
  | string
  | number
  | integer
  | boolean
  | array
  | object
  | null
  | any
deriving DecidableEq

/-- `SchemaDefinition` from `openapi_types.rs` (recursive, so an inductive
with one constructor; `properties` models the `BTreeMap` as an association
list in its iteration order). -/
inductive SchemaDefinition where
  | mk
    (schema_type : SchemaType)
    (format : Option String)
    (description : Option String)
    (items : Option SchemaDefinition)
    (properties : List (String × SchemaDefinition))
    (required : List String)
    (ref_name : Option String)
    (enum_values : List String)
    (exampleVal : Option String)
    (defaultVal : Option String)
    (nullable : Bool)
    (additional_properties : Option SchemaDefinition)
    (one_of : List SchemaDefinition)
    (any_of : List SchemaDefinition)
    (all_of : List SchemaDefinition)

/-- `SchemaDefinition::default()`. -/
def defaultSchema : SchemaDefinition :=
  .mk .any none none none [] [] none [] none none false none [] [] []

/-- Replace the `ref_name` field (the `def.ref_name = ref_name` assignment in
the parser). -/
def SchemaDefinition.withRefName (s : SchemaDefinition) (r : Option String) : SchemaDefinition :=
  match s with
  | .mk st f d it p req _ e ex dv nu ap o a al => .mk st f d it p req r e ex dv nu ap o a al

/-- `str::parse::<i64>()` on the decimal strings the code feeds it: optional
sign, one or more ASCII digits, within the i64 range. -/
def parseI64 (s : Str) : Option Int :=
  match s with
  | '+' :: t => (digitsVal t).bind (fun n => if (n : Int) ≤ 2 ^ 63 - 1 then some (n : Int) else none)
  | '-' :: t => (digitsVal t).bind (fun n => if (n : Int) ≤ 2 ^ 63 then some (-(n : Int)) else none)
  | t => (digitsVal t).bind (fun n => if (n : Int) ≤ 2 ^ 63 - 1 then some (n : Int) else none)
where
  digitsVal : Str → Option Nat
  | [] => none
  | ds => if ds.all Char.isDigit then some (ds.foldl (fun a c => a * 10 + (c.toNat - 48)) 0)
          else none

/-- `SchemaDefinition::generate_example_json` from `openapi_types.rs`.
`parseJson` models `serde_json::from_str` on explicit example strings. -/
def generate_example_json (parseJson : String → Option Json) :
    SchemaDefinition → Nat → Json
  | s, depth =>
    if _h : 5 < depth then Json.obj []
    else
      match s with
      | .mk st format _ items props _ _ enums ex dflt _ _ _ _ _ =>
        match ex with
        | some e =>
          match parseJson e with
          | some v => v
          | none => Json.str e
        | none =>
          match st with
          | SchemaType.string =>
            match enums with
            | e0 :: _ => Json.str e0
            | [] =>
              match format with
              | some f =>
                if f = "uuid" then Json.str "550e8400-e29b-41d4-a716-446655440000"
                else if f = "date-time" then Json.str "2024-01-15T09:30:00Z"
                else if f = "date" then Json.str "2024-01-15"
                else if f = "uri" ∨ f = "url" then Json.str "https://example.com"
                else if f = "email" then Json.str "user@example.com"
                else Json.str "string"
              | none => Json.str "string"
          | SchemaType.integer =>
            match dflt with
            | some d =>
              match parseI64 d.data with
              | some n => Json.num n
              | none => Json.num 0
            | none => Json.num 0
          | SchemaType.number => Json.dnum 0
          | SchemaType.boolean => Json.bool true
          | SchemaType.array =>
            match items with
            | some it => Json.arr [generate_example_json parseJson it (depth + 1)]
            | none => Json.arr []
          | SchemaType.object =>
            match props with
            | [] => Json.obj []
            | _ =>
              Json.obj (props.map (fun p => (p.1, generate_example_json parseJson p.2 (depth + 1))))
          | SchemaType.null => Json.null
          | SchemaType.any => Json.str "any"
termination_by _ depth => 6 - depth
decreasing_by all_goals omega

/-- `ParameterLocation` from `openapi_types.rs`. -/
inductive ParameterLocation where
  | path
  | query
  | header
  | cookie
deriving DecidableEq

/-- `HttpMethod` from `openapi_types.rs`. -/
inductive HttpMethod where
  | get
  | post
  | put
  | delete
  | patch
  | head
  | options
deriving DecidableEq

/-- `ApiParameter` from `openapi_types.rs`. -/
structure ApiParameter where
  name : String
  location : ParameterLocation
  description : Option String
  required : Bool
  deprecated : Bool
  schema : Option SchemaDefinition
  exampleVal : Option String

/-- `MediaTypeContent` from `openapi_types.rs`. -/
structure MediaTypeContent where
  media_type : String
  schema : Option SchemaDefinition
  exampleVal : Option String

/-- `ApiRequestBody` from `openapi_types.rs`. -/
structure ApiRequestBody where
  description : Option String
  required : Bool
  content : List MediaTypeContent

/-- `ApiResponse` from `openapi_types.rs`. -/
structure ApiResponse where
  status_code : String
  description : String
  content : List MediaTypeContent

/-- `ApiOperation` from `openapi_types.rs`. -/
structure ApiOperation where
  operation_id : Option String
  method : HttpMethod
  path : String
  summary : Option String
  description : Option String
  tags : List String
  parameters : List ApiParameter
  request_body : Option ApiRequestBody
  responses : List ApiResponse
  deprecated : Bool

/-- The inner `for content in &response.content` loop of
`generate_response_example`: the first content entry carrying a schema. -/
def findSchemaContent : List MediaTypeContent → Option SchemaDefinition
  | [] => none
  | c :: rest =>
    match c.schema with
    | some s => some s
    | none => findSchemaContent rest

/-- `ApiOperation::generate_response_example` from `openapi_types.rs`:
the first response whose status code starts with `'2'` and which has a
content entry carrying a schema yields `(status_code, pretty_json)`.
`pp` models `serde_json::to_string_pretty`, which never fails on a `Value`. -/
def responseExampleLoop (parseJson : String → Option Json) (pp : Json → String) :
    List ApiResponse → Option (String × String)
  | [] => none
  | r :: rest =>
    if r.status_code.startsWith "2" then
      match findSchemaContent r.content with
      | some s => some (r.status_code, pp (generate_example_json parseJson s 0))
      | none => responseExampleLoop parseJson pp rest
    else responseExampleLoop parseJson pp rest

/-- Method wrapper, as in the source. -/
def ApiOperation.generate_response_example (op : ApiOperation)
    (parseJson : String → Option Json) (pp : Json → String) : Option (String × String) :=
  responseExampleLoop parseJson pp op.responses

/- ### Parameter merging (crates/dioxus-mdx/src/parser/openapi_parser.rs,
transform_operation lines 133-146)

    let mut parameters: Vec<ApiParameter> = path_params.iter()
        .filter_map(|p| transform_parameter(p, spec)).collect();
    for param in &op.parameters {
        if let Some(p) = transform_parameter(param, spec) {
            // Don't add duplicates (operation params override path params)
            if !parameters.iter().any(|existing| existing.name == p.name) {
                parameters.push(p);
            }
        }
    }

`combine_parameters` takes the two lists of successfully transformed
parameters (the outputs of `transform_parameter` for the path level and the
operation level) and performs exactly this merge. -/
def combine_parameters (pathParams opParams : List ApiParameter) : List ApiParameter :=
  opParams.foldl
    (fun parameters p =>
      if parameters.any (fun existing => existing.name == p.name) then parameters
      else parameters ++ [p])
    pathParams

/-- A path-level parameter `id` that is optional. -/
def pathIdParam : ApiParameter :=
  { name := "id", location := .path, description := none, required := false,
    deprecated := false, schema := none, exampleVal := none }

/-- An operation-level parameter `id` that is required. -/
def opIdParam : ApiParameter :=
  { pathIdParam with required := true }

/-- C1: evaluating the parameter merge at the failing input shows that when a
path-level and an operation-level parameter share a name, the code keeps the
path-level definition and drops the operation-level one — contrary to the
claim (and to the code's own comment) that the operation-level parameter
overrides the path-level one. -/
theorem c1_parameter_merge_keeps_path_level :
    combine_parameters [pathIdParam] [opIdParam] = [pathIdParam] ∧
    pathIdParam.required = false ∧
    opIdParam.required = true ∧
    combine_parameters [pathIdParam] [opIdParam] ≠ [opIdParam] := by
  refine ⟨rfl, rfl, rfl, fun h => ?_⟩
  rw [show combine_parameters [pathIdParam] [opIdParam] = [pathIdParam] from rfl] at h
  rw [List.cons.injEq] at h
  exact Bool.noConfusion (congrArg ApiParameter.required h.1)

/-- The inner loop finds exactly the first schema-bearing content entry. -/
theorem findSchemaContent_eq_find :
    ∀ cs : List MediaTypeContent,
      findSchemaContent cs = (cs.find? (fun c => c.schema.isSome)).bind (fun c => c.schema)
  | [] => rfl
  | c :: rest => by
    cases hs : c.schema with
    | some s =>
      rw [findSchemaContent, hs, List.find?_cons_of_pos _ (by simp [hs])]
      simp [hs]
    | none =>
      rw [findSchemaContent, hs, List.find?_cons_of_neg _ (by simp [hs])]
      exact findSchemaContent_eq_find rest

/-- C7: `generate_response_example` returns `(status_code, pretty_json)` for
the first response whose status code starts with `'2'` and which carries a
schema-bearing content entry (the pretty-printed generated example of that
schema), and `None` when no such response exists. -/
theorem c7_generate_response_example_spec :
    ∀ (parseJson : String → Option Json) (pp : Json → String) (op : ApiOperation),
      op.generate_response_example parseJson pp =
        (op.responses.find? (fun r =>
            r.status_code.startsWith "2" && (r.content.find? (fun c => c.schema.isSome)).isSome)).bind
          (fun r =>
            ((r.content.find? (fun c => c.schema.isSome)).bind (fun c => c.schema)).map
              (fun s => (r.status_code, pp (generate_example_json parseJson s 0)))) := by
  intro parseJson pp op
  rw [ApiOperation.generate_response_example]
  induction op.responses with
  | nil => rfl
  | cons r rest ih =>
    rw [responseExampleLoop]
    by_cases h2 : r.status_code.startsWith "2"
    · rw [if_pos h2]
      cases hf : r.content.find? (fun c => c.schema.isSome) with
      | none =>
        rw [findSchemaContent_eq_find, hf]
        rw [List.find?_cons_of_neg _ (by simp [h2, hf])]
        simpa using ih
      | some c =>
        cases hcs : c.schema with
        | none =>
          have := List.find?_some hf
          rw [hcs] at this
          exact absurd this (by simp)
        | some s =>
          rw [findSchemaContent_eq_find, hf]
          rw [List.find?_cons_of_pos _ (by simp [h2, hf])]
          simp [hf, hcs]
    · rw [if_neg h2]
      rw [List.find?_cons_of_neg _ (by simp [h2])]
      exact ih

/- ### Schema transformation (crates/dioxus-mdx/src/parser/openapi_parser.rs)

The `openapiv3` input model is embedded as `RawSchema` (with `format` already
in its `extract_format` string form, and `$ref` targets as strings).  The
transformation `transform_schema` / `resolve_and_transform_schema` recurses
through properties, items and the oneOf/anyOf/allOf lists, re-resolving
`#/components/schemas/*` references against the spec on every encounter and
with no depth guard; the Lean embedding therefore takes a fuel argument, with
`none` meaning that the recursion did not complete within the given fuel.
`fmt` models `format_json_value`'s pretty-printing of non-string JSON
values. -/

structure RawSchemaData where
  description : Option String
  exampleVal : Option Json
  defaultVal : Option Json
  nullable : Bool

mutual
inductive RawSchema where
  | mk (data : RawSchemaData) (kind : RawSchemaKind)
inductive RawSchemaKind where
  | string (format : Option String) (enumeration : List (Option String))
  | number (format : Option String)
  | integer (format : Option String)
  | boolean
  | array (items : Option RawSchemaRef)
  | obj (required : List String) (properties : List (String × RawSchemaRef))
      (additional : Option RawAdditional)
  | oneOf (alts : List RawSchemaRef)
  | anyOf (alts : List RawSchemaRef)
  | allOf (alts : List RawSchemaRef)
  | notKind
  | anyKind
inductive RawSchemaRef where
  | item (s : RawSchema)
  | reference (r : String)
inductive RawAdditional where
  | anyAllowed (b : Bool)
  | schema (s : RawSchemaRef)
end

structure RawComponents where
  schemas : List (String × RawSchemaRef)

structure RawSpec where
  components : Option RawComponents


/-- `reference.strip_prefix("#/components/schemas/")` (prefix test done on the
character lists, which the kernel can evaluate). -/
def refNameOf (r : String) : Option String :=
  if ("#/components/schemas/".data).isPrefixOf r.data then some (r.drop 21) else none

/-- `format_json_value`: a JSON string is used verbatim, anything else is
pretty-printed (`fmt`). -/
def format_json_value (fmt : Json → String) (v : Json) : String :=
  match v with
  | .str s => s
  | other => fmt other

mutual
/-- `resolve_and_transform_schema` (and its boxed twin, which is textually
identical): resolve a `$ref` against `#/components/schemas/*`, transform the
target (tagging it with the reference name), or fall back to a stub schema
carrying only the reference name.  Every call consumes one unit of fuel;
`none` means the recursion did not complete within the fuel bound. -/
def resolve_and_transform_schema (fmt : Json → String) :
    Nat → RawSchemaRef → RawSpec → Option SchemaDefinition
  | 0, _, _ => none
  | fuel + 1, .item s, spec => transform_schema fmt fuel s spec
  | fuel + 1, .reference ref, spec =>
    match refNameOf ref with
    | none => some (defaultSchema.withRefName none)
    | some nm =>
      match spec.components with
      | none => some (defaultSchema.withRefName (some nm))
      | some comps =>
        match comps.schemas.lookup nm with
        | some (.item s) =>
          (transform_schema fmt fuel s spec).map (fun d => d.withRefName (some nm))
        | _ => some (defaultSchema.withRefName (some nm))

/-- `transform_schema`: one `SchemaDefinition` per schema kind, recursing
into items, properties and oneOf/anyOf/allOf through
`resolve_and_transform_schema` with no depth guard. -/
def transform_schema (fmt : Json → String) :
    Nat → RawSchema → RawSpec → Option SchemaDefinition
  | 0, _, _ => none
  | fuel + 1, .mk data kind, spec =>
    match kind with
    | .string format enumeration =>
      some (.mk .string format data.description none [] [] none (enumeration.filterMap id)
        (data.exampleVal.map (format_json_value fmt)) (data.defaultVal.map (format_json_value fmt))
        data.nullable none [] [] [])
    | .number format =>
      some (.mk .number format data.description none [] [] none []
        (data.exampleVal.map (format_json_value fmt)) (data.defaultVal.map (format_json_value fmt))
        data.nullable none [] [] [])
    | .integer format =>
      some (.mk .integer format data.description none [] [] none []
        (data.exampleVal.map (format_json_value fmt)) (data.defaultVal.map (format_json_value fmt))
        data.nullable none [] [] [])
    | .boolean =>
      some (.mk .boolean none data.description none [] [] none []
        (data.exampleVal.map (format_json_value fmt)) (data.defaultVal.map (format_json_value fmt))
        data.nullable none [] [] [])
    | .array items =>
      match items with
      | some it =>
        (resolve_and_transform_schema fmt fuel it spec).map (fun d =>
          .mk .array none data.description (some d) [] [] none []
            (data.exampleVal.map (format_json_value fmt))
            (data.defaultVal.map (format_json_value fmt)) data.nullable none [] [] [])
      | none =>
        some (.mk .array none data.description none [] [] none []
          (data.exampleVal.map (format_json_value fmt))
          (data.defaultVal.map (format_json_value fmt)) data.nullable none [] [] [])
    | .obj req props additional =>
      (transform_schema_props fmt fuel props spec).bind (fun pd =>
        (match additional with
         | some (.anyAllowed true) => some (some defaultSchema)
         | some (.anyAllowed false) => some none
         | some (.schema sr) => (resolve_and_transform_schema fmt fuel sr spec).map some
         | none => some none).map (fun ap =>
          .mk .object none data.description none pd req none []
            (data.exampleVal.map (format_json_value fmt))
            (data.defaultVal.map (format_json_value fmt)) data.nullable ap [] [] []))
    | .oneOf alts =>
      (transform_schema_refs fmt fuel alts spec).map (fun ds =>
        .mk .any none data.description none [] [] none []
          (data.exampleVal.map (format_json_value fmt))
          (data.defaultVal.map (format_json_value fmt)) data.nullable none ds [] [])
    | .anyOf alts =>
      (transform_schema_refs fmt fuel alts spec).map (fun ds =>
        .mk .any none data.description none [] [] none []
          (data.exampleVal.map (format_json_value fmt))
          (data.defaultVal.map (format_json_value fmt)) data.nullable none [] ds [])
    | .allOf alts =>
      (transform_schema_refs fmt fuel alts spec).map (fun ds =>
        .mk .any none data.description none [] [] none []
          (data.exampleVal.map (format_json_value fmt))
          (data.defaultVal.map (format_json_value fmt)) data.nullable none [] [] ds)
    | .notKind =>
      some (.mk .any none data.description none [] [] none []
        (data.exampleVal.map (format_json_value fmt))
        (data.defaultVal.map (format_json_value fmt)) data.nullable none [] [] [])
    | .anyKind =>
      some (.mk .any none data.description none [] [] none []
        (data.exampleVal.map (format_json_value fmt))
        (data.defaultVal.map (format_json_value fmt)) data.nullable none [] [] [])

/-- Property-map traversal of the object branch. -/
def transform_schema_props (fmt : Json → String) :
    Nat → List (String × RawSchemaRef) → RawSpec → Option (List (String × SchemaDefinition))
  | 0, _, _ => none
  | _ + 1, [], _ => some []
  | fuel + 1, (n, r) :: rest, spec =>
    (resolve_and_transform_schema fmt fuel r spec).bind (fun d =>
      (transform_schema_props fmt fuel rest spec).map (fun ds => (n, d) :: ds))

/-- Traversal of oneOf/anyOf/allOf lists. -/
def transform_schema_refs (fmt : Json → String) :
    Nat → List RawSchemaRef → RawSpec → Option (List SchemaDefinition)
  | 0, _, _ => none
  | _ + 1, [], _ => some []
  | fuel + 1, r :: rest, spec =>
    (resolve_and_transform_schema fmt fuel r spec).bind (fun d =>
      (transform_schema_refs fmt fuel rest spec).map (fun ds => d :: ds))
end

/-- Schema `A`: an object whose property `b` references schema `B`. -/
def cyclicSchemaA : RawSchema :=
  .mk ⟨none, none, none, false⟩ (.obj [] [("b", .reference "#/components/schemas/B")] none)

/-- Schema `B`: an object whose property `a` references schema `A`. -/
def cyclicSchemaB : RawSchema :=
  .mk ⟨none, none, none, false⟩ (.obj [] [("a", .reference "#/components/schemas/A")] none)

/-- A spec whose components hold the mutually referencing schemas A and B. -/
def cyclicSpec : RawSpec :=
  ⟨some ⟨[("A", .item cyclicSchemaA), ("B", .item cyclicSchemaB)]⟩⟩

/-- On the cyclic spec the schema transformation never completes, whatever
the fuel: the unguarded recursion of the code diverges at parse time. -/
theorem transform_schema_cyclic_diverges (fmt : Json → String) :
    ∀ fuel : Nat,
      transform_schema fmt fuel cyclicSchemaA cyclicSpec = none ∧
      transform_schema fmt fuel cyclicSchemaB cyclicSpec = none := by
  intro fuel
  induction fuel using Nat.strong_induction_on with
  | _ fuel ih =>
    match fuel with
    | 0 => exact ⟨rfl, rfl⟩
    | 1 => exact ⟨rfl, rfl⟩
    | 2 => exact ⟨rfl, rfl⟩
    | (f + 3) =>
      have hA := (ih f (by omega)).1
      have hB := (ih f (by omega)).2
      constructor
      · show transform_schema fmt (f + 2 + 1) cyclicSchemaA cyclicSpec = none
        rw [show cyclicSchemaA = RawSchema.mk ⟨none, none, none, false⟩
          (.obj [] [("b", .reference "#/components/schemas/B")] none) from rfl]
        rw [transform_schema]
        simp only [transform_schema_props, resolve_and_transform_schema]
        rw [show refNameOf "#/components/schemas/B" = some "B" from by decide]
        simp only [cyclicSpec]
        rw [show ([("A", RawSchemaRef.item cyclicSchemaA),
          ("B", RawSchemaRef.item cyclicSchemaB)].lookup "B") =
          some (RawSchemaRef.item cyclicSchemaB) from by rfl]
        have hB' : transform_schema fmt f cyclicSchemaB
            ⟨some ⟨[("A", RawSchemaRef.item cyclicSchemaA),
                    ("B", RawSchemaRef.item cyclicSchemaB)]⟩⟩ = none := hB
        simp [hB']
      · show transform_schema fmt (f + 2 + 1) cyclicSchemaB cyclicSpec = none
        rw [show cyclicSchemaB = RawSchema.mk ⟨none, none, none, false⟩
          (.obj [] [("a", .reference "#/components/schemas/A")] none) from rfl]
        rw [transform_schema]
        simp only [transform_schema_props, resolve_and_transform_schema]
        rw [show refNameOf "#/components/schemas/A" = some "A" from by decide]
        simp only [cyclicSpec]
        rw [show ([("A", RawSchemaRef.item cyclicSchemaA),
          ("B", RawSchemaRef.item cyclicSchemaB)].lookup "A") =
          some (RawSchemaRef.item cyclicSchemaA) from by rfl]
        have hA' : transform_schema fmt f cyclicSchemaA
            ⟨some ⟨[("A", RawSchemaRef.item cyclicSchemaA),
                    ("B", RawSchemaRef.item cyclicSchemaB)]⟩⟩ = none := hA
        simp [hA']

/-- Beyond the depth bound, example generation returns the empty JSON object
immediately. -/
theorem generate_example_json_beyond_depth (parseJson : String → Option Json)
    (s : SchemaDefinition) (d : Nat) :
    generate_example_json parseJson s (d + 6) = Json.obj [] := by
  rw [generate_example_json.eq_def]
  simp only
  rw [dif_pos (by omega : 5 < d + 6)]

/-- C6: parsing a spec with a self-referential `$ref` cycle does NOT
terminate: `transform_schema` (invoked by `parse_openapi` on every component
schema) re-resolves references with no depth guard, so on the A↔B cycle it
fails to complete within any fuel bound — the claim's guarded function
`generate_example_json` is never even reached.  The depth-5 guard itself is
real: at any depth beyond the bound, example generation returns the empty
JSON object. -/
theorem c6_cyclic_ref_termination :
    (∀ (fmt : Json → String) (fuel : Nat),
        transform_schema fmt fuel cyclicSchemaA cyclicSpec = none) ∧
    (∀ (parseJson : String → Option Json) (s : SchemaDefinition) (d : Nat),
        generate_example_json parseJson s (d + 6) = Json.obj []) :=
  ⟨fun fmt fuel => (transform_schema_cyclic_diverges fmt fuel).1,
   fun pj s d => generate_example_json_beyond_depth pj s d⟩

/- ### Document tree (crates/dioxus-mdx/src/parser/types.rs)

Node payloads whose fields are recursive (`Vec<DocNode>`) live in the mutual
block; the non-recursive payloads are plain structures. -/

structure ApiInfo where
  title : String
  version : String
  description : Option String

structure ApiServer where
  url : String
  description : Option String

structure ApiTag where
  name : String
  description : Option String

/-- `OpenApiSpec` from `openapi_types.rs` (the schema `BTreeMap` as an
association list in iteration order). -/
structure OpenApiSpec where
  info : ApiInfo
  servers : List ApiServer
  operations : List ApiOperation
  tags : List ApiTag
  schemas : List (String × SchemaDefinition)

/-- `OpenApiError` from `openapi_parser.rs`. -/
inductive OpenApiError where
  | ParseError (msg : String)
  | InvalidSpec (msg : String)

inductive CalloutType where
  | tip
  | note
  | warning
  | info
deriving DecidableEq

inductive ParamLocation where
  | header
  | path
  | query
  | body
deriving DecidableEq

structure CalloutNode where
  callout_type : CalloutType
  content : Str

structure CardNode where
  title : Str
  icon : Option Str
  href : Option Str
  content : Str

structure CardGroupNode where
  cols : Nat
  cards : List CardNode

structure CodeBlockNode where
  language : Option Str
  code : Str
  filename : Option Str

structure CodeGroupNode where
  blocks : List CodeBlockNode

structure ResponseFieldNodeCore where
  name : Str
  field_type : Str
  required : Bool
  content : Str

mutual
inductive DocNode where
  | Markdown (text : Str)
  | Callout (node : CalloutNode)
  | Card (node : CardNode)
  | CardGroup (node : CardGroupNode)
  | Tabs (node : TabsNode)
  | Steps (node : StepsNode)
  | AccordionGroup (node : AccordionGroupNode)
  | CodeBlock (node : CodeBlockNode)
  | CodeGroup (node : CodeGroupNode)
  | ParamField (node : ParamFieldNode)
  | ResponseField (node : ResponseFieldNode)
  | Expandable (node : ExpandableNode)
  | RequestExample (node : CodeGroupNode)
  | ResponseExample (node : CodeGroupNode)
  | Update (node : UpdateNode)
  | OpenApi (node : OpenApiNode)
inductive TabNode where
  | mk (title : Str) (content : List DocNode)
inductive TabsNode where
  | mk (tabs : List TabNode)
inductive StepNode where
  | mk (title : Str) (content : List DocNode)
inductive StepsNode where
  | mk (steps : List StepNode)
inductive AccordionNode where
  | mk (title : Str) (icon : Option Str) (content : List DocNode)
inductive AccordionGroupNode where
  | mk (items : List AccordionNode)
inductive ParamFieldNode where
  | mk (name : Str) (location : ParamLocation) (param_type : Str) (required : Bool)
      (defaultVal : Option Str) (content : List DocNode)
inductive ResponseFieldNode where
  | mk (core : ResponseFieldNodeCore) (expandable : Option ExpandableNode)
inductive ExpandableNode where
  | mk (title : Str) (fields : List ResponseFieldNode)
inductive UpdateNode where
  | mk (label : Str) (description : Str) (content : List DocNode)
inductive OpenApiNode where
  | mk (spec : OpenApiSpec) (tags : Option (List Str)) (show_schemas : Bool)
end

/- ### Attribute extraction (parser/utils.rs)

    pub(super) fn extract_attr(tag_content: &str, attr_name: &str) -> Option<String> {
        let pattern = format!(r#"{}="([^"]*)""#, attr_name);
        ...first regex match...
    }

The regex matches at the earliest position where `attr="` is followed by a
closing quote; the capture is the text up to that quote. -/
def extractAttrLoop (pat : Str) : Str → Option Str
  | [] => none
  | c :: rest =>
    if pat.isPrefixOf (c :: rest) then
      let after := (c :: rest).drop pat.length
      match strFind after ['"'] with
      | some q => some (after.take q)
      | none => extractAttrLoop pat rest
    else extractAttrLoop pat rest

/-- `extract_attr` from `parser/utils.rs`. -/
def extract_attr (tag_content : Str) (attr_name : Str) : Option Str :=
  extractAttrLoop (attr_name ++ ['=', '"']) tag_content

/- ### Callout parser (crates/dioxus-mdx/src/parser/callout.rs)

The opening regex `^<(Tip|Note|Warning|Info)>` is the ordered alternative of
the four literal tags; the matching close tag is found with a plain
`str::find` (no nesting). -/

def calloutTags : List (Str × CalloutType) :=
  [("Tip".data, .tip), ("Note".data, .note), ("Warning".data, .warning), ("Info".data, .info)]

def calloutLoop : List (Str × CalloutType) → Str → Option (DocNode × Str)
  | [], _ => none
  | (tag, ty) :: rest, content =>
    if (openTagS tag).isPrefixOf content then
      match strFind (content.drop (openTagS tag).length) (closePat tag) with
      | none => none
      | some close_idx =>
        let after_open := content.drop (openTagS tag).length
        some (.Callout ⟨ty, trimS (after_open.take close_idx)⟩,
          after_open.drop (close_idx + (closePat tag).length))
    else calloutLoop rest content

/-- `try_parse_callout` from `parser/callout.rs`. -/
def try_parse_callout (content : Str) : Option (DocNode × Str) :=
  calloutLoop calloutTags content

/- ### Card parsers (crates/dioxus-mdx/src/parser/card.rs) -/

/-- Last character of the trimmed tag text is `'/'`
(`tag_content.trim().ends_with('/')`). -/
def endsWithSlash (tag_content : Str) : Bool :=
  (trimS tag_content).getLast? == some '/'

/-- `parse_single_card`: find the end of the opening tag, read the
attributes, and (for the block form) take the inner text up to the matching
`</Card>`. -/
def parse_single_card (content : Str) : Option CardNode :=
  match strFind content ['>'] with
  | none => none
  | some tag_end =>
    let tag_content := (content.drop 5).take (tag_end - 5)
    let title := extract_attr tag_content "title".data
    let icon := extract_attr tag_content "icon".data
    let href := extract_attr tag_content "href".data
    let inner :=
      if endsWithSlash tag_content then []
      else
        match find_closing_tag (content.drop (tag_end + 1)) "Card".data with
        | some close_idx => trimS ((content.drop (tag_end + 1)).take close_idx)
        | none => []
    some { title := title.getD [], icon := icon, href := href, content := inner }

/-- `find_card_end`: offset just past the card element (self-closing or
including the closing tag). -/
def find_card_end (content : Str) : Option Nat :=
  match strFind content ['>'] with
  | none => none
  | some tag_end =>
    let tag_content := (content.drop 5).take (tag_end - 5)
    if endsWithSlash tag_content then some (tag_end + 1)
    else
      match find_closing_tag (content.drop (tag_end + 1)) "Card".data with
      | some close_idx => some (tag_end + 1 + close_idx + "</Card>".data.length)
      | none => none

/-- `try_parse_standalone_card`: a standalone card becomes a single-card
`CardGroup` with `cols = 1`. -/
def try_parse_standalone_card (content : Str) : Option (DocNode × Str) :=
  if "<Card".data.isPrefixOf content then
    match parse_single_card content with
    | none => none
    | some card =>
      match find_card_end content with
      | none => none
      | some card_end =>
        some (.CardGroup ⟨1, [card]⟩, content.drop card_end)
  else none

/-- One optional quoted attribute group `(?:name="([^"]*)")?` of the
self-closing-card regex: if `name="` is present here and a closing quote
follows, consume it; otherwise the group is skipped. -/
def tryQuotedAttr (nm : Str) (s : Str) : Option Str × Str :=
  if (nm ++ ['=', '"']).isPrefixOf s then
    let after := s.drop (nm.length + 2)
    match strFind after ['"'] with
    | some q => (some (after.take q), after.drop (q + 1))
    | none => (none, s)
  else (none, s)

/-- The self-closing-card regex
`^<Card\s+(?:title="...")?\s*(?:icon="...")?\s*(?:href="...")?\s*/>`,
returning the card and the rest after the match. -/
def matchSelfClosingCard (content : Str) : Option (CardNode × Str) :=
  if "<Card".data.isPrefixOf content then
    let s0 := content.drop 5
    let wsLen := (s0.takeWhile Char.isWhitespace).length
    if wsLen = 0 then none
    else
      let s1 := s0.drop wsLen
      let (title, s2) := tryQuotedAttr "title".data s1
      let s2b := s2.dropWhile Char.isWhitespace
      let (icon, s3) := tryQuotedAttr "icon".data s2b
      let s3b := s3.dropWhile Char.isWhitespace
      let (href, s4) := tryQuotedAttr "href".data s3b
      let s4b := s4.dropWhile Char.isWhitespace
      if ['/', '>'].isPrefixOf s4b then
        some ({ title := title.getD [], icon := icon, href := href, content := [] }, s4b.drop 2)
      else none
  else none

/-- `parse_cards`: the card-sequence loop inside `CardGroup`/`Columns`.  Every
iteration consumes one unit of fuel; `none` means the loop did not finish
within the fuel bound (the skip branch `remaining.find("<Card")` can yield
offset 0 and then never progresses). -/
def parse_cards : Nat → Str → Option (List CardNode)
  | 0, _ => none
  | fuel + 1, content =>
    let remaining := trimS content
    match matchSelfClosingCard remaining with
    | some (card, rest) => (parse_cards fuel rest).map (card :: ·)
    | none =>
      match (if "<Card".data.isPrefixOf remaining then parse_single_card remaining else none) with
      | some card =>
        let card_end := (find_card_end remaining).getD remaining.length
        (parse_cards fuel (remaining.drop card_end)).map (card :: ·)
      | none =>
        match strFind remaining "<Card".data with
        | some idx => parse_cards fuel (remaining.drop idx)
        | none => some []

/-- The opening regex of `CardGroup`/`Columns`:
`^<Lit(?:\s+cols=\{?(\d+)\}?)?\s*>`.  Returns the resolved `cols` value
(`parse::<u8>().unwrap_or(dflt)` on the capture, `dflt` when the group is
absent) and the slice after the `'>'`. -/
def matchOpenWithCols (lit : Str) (dflt : Nat) (content : Str) : Option (Nat × Str) :=
  if lit.isPrefixOf content then
    let after := content.drop lit.length
    let wsLen := (after.takeWhile Char.isWhitespace).length
    let grp :=
      if wsLen ≠ 0 ∧ ("cols=".data).isPrefixOf (after.drop wsLen) then
        let s1 := after.drop (wsLen + 5)
        let s2 := if s1.head? = some (Char.ofNat 123) then s1.drop 1 else s1
        let digits := s2.takeWhile Char.isDigit
        if digits = [] then none
        else
          let s3 := s2.drop digits.length
          let s4 := if s3.head? = some (Char.ofNat 125) then s3.drop 1 else s3
          let s5 := s4.dropWhile Char.isWhitespace
          if s5.head? = some '>' then
            some (digits.foldl (fun a c => a * 10 + (c.toNat - 48)) 0, s5.drop 1)
          else none
      else none
    match grp with
    | some (v, rest) => some (if v ≤ 255 then v else dflt, rest)
    | none =>
      let t := after.dropWhile Char.isWhitespace
      if t.head? = some '>' then some (dflt, t.drop 1) else none
  else none

/-- `try_parse_card_group` from `parser/card.rs` (fuelled through
`parse_cards`; the outer `none` means the inner card loop diverged, `some
none` means the parser does not match here). -/
def try_parse_card_group (fuel : Nat) (content : Str) : Option (Option (DocNode × Str)) :=
  match matchOpenWithCols "<CardGroup".data 2 content with
  | none => some none
  | some (cols, after_open) =>
    match find_closing_tag after_open "CardGroup".data with
    | none => some none
    | some close_idx =>
      match parse_cards fuel (after_open.take close_idx) with
      | none => none
      | some cards =>
        some (some (.CardGroup ⟨cols, cards⟩,
          after_open.drop (close_idx + "</CardGroup>".data.length)))

/-- `try_parse_columns` from `parser/card.rs` (same as `CardGroup`, default
cols 3, result still a `CardGroup` node). -/
def try_parse_columns (fuel : Nat) (content : Str) : Option (Option (DocNode × Str)) :=
  match matchOpenWithCols "<Columns".data 3 content with
  | none => some none
  | some (cols, after_open) =>
    match find_closing_tag after_open "Columns".data with
    | none => some none
    | some close_idx =>
      match parse_cards fuel (after_open.take close_idx) with
      | none => none
      | some cards =>
        some (some (.CardGroup ⟨cols, cards⟩,
          after_open.drop (close_idx + "</Columns>".data.length)))

/- ### OpenAPI tag parser (crates/dioxus-mdx/src/parser/openapi_tag.rs)

`parse_openapi` (serde deserialisation plus spec transformation) is modelled
by the function parameter `parseSpec`. -/

/-- `try_parse_openapi` from `parser/openapi_tag.rs`. -/
def try_parse_openapi (parseSpec : Str → Except OpenApiError OpenApiSpec) (content : Str) :
    Option (DocNode × Str) :=
  if "<OpenAPI".data.isPrefixOf content then
    match strFind content ['>'] with
    | none => none
    | some tag_end =>
      let tag_content := (content.drop 8).take (tag_end - 8)
      let tags_attr := extract_attr tag_content "tags".data
      let show_schemas := !(strFind tag_content "hideSchemas".data).isSome
      let tags := tags_attr.map (fun t => (splitWhen (fun c => c == ',') t).map trimS)
      if endsWithSlash tag_content then none
      else
        let after_open := content.drop (tag_end + 1)
        match find_closing_tag after_open "OpenAPI".data with
        | none => none
        | some close_idx =>
          match parseSpec (trimS (after_open.take close_idx)) with
          | .error _ => none
          | .ok spec =>
            some (.OpenApi ⟨spec, tags, show_schemas⟩,
              after_open.drop (close_idx + "</OpenAPI>".data.length))
  else none

/- ### Content dispatcher (crates/dioxus-mdx/src/parser/content.rs) -/

/-- The opening-tag substrings recognised by `find_next_component`. -/
def componentPatterns : List Str :=
  ["<Tip>", "<Note>", "<Warning>", "<Info>", "<Card", "<CardGroup", "<Columns", "<Tabs>",
   "<Steps>", "<AccordionGroup>", "<Accordion", "<ParamField", "<ResponseField", "<Expandable",
   "<RequestExample>", "<ResponseExample>", "<CodeGroup>", "<Update", "<OpenAPI"].map String.data

/-- `find_next_component`: minimum of the find results over all patterns. -/
def find_next_component (content : Str) : Option Nat :=
  (componentPatterns.filterMap (fun p => strFind content p)).min?

/-- A component parser as the dispatcher sees it: `none` models a call that
never returns (divergence inside the parser), `some none` a parser that does
not match at this position, and `some (some (node, rest))` a successful
parse. -/
abbrev ComponentParser := Str → Option (Option (DocNode × Str))

/-- A parser whose code always returns. -/
def liftTotal (p : Str → Option (DocNode × Str)) : ComponentParser :=
  fun s => some (p s)

/-- The if-else chain over the component parsers in priority order. -/
def tryParsersFirst : List ComponentParser → Str → Option (Option (DocNode × Str))
  | [], _ => some none
  | p :: rest, s =>
    match p s with
    | none => none
    | some (some r) => some (some r)
    | some none => tryParsersFirst rest s

/-- The `parse_content` while loop.  `parsers` is the ordered component
parser list, `extractMd` models `extract_code_blocks_from_markdown` (the
markdown/fenced-code splitter applied to fallback spans), one unit of fuel is
one loop iteration, and `none` means the loop (or a component parser) did not
finish within the fuel bound. -/
def parse_content_loop (parsers : List ComponentParser) (extractMd : Str → List DocNode) :
    Nat → Str → Option (List DocNode)
  | 0, _ => none
  | fuel + 1, remaining =>
    if remaining = [] then some []
    else
      match tryParsersFirst parsers remaining with
      | none => none
      | some (some (node, rest)) =>
        (parse_content_loop parsers extractMd fuel (trimS rest)).map (node :: ·)
      | some none =>
        let mdrest :=
          match find_next_component remaining with
          | some idx =>
            if idx = 0 then
              let skip := ((strFind remaining ['>']).map (· + 1)).getD 1
              (remaining.take skip, remaining.drop skip)
            else (remaining.take idx, remaining.drop idx)
          | none => (remaining, ([] : Str))
        (parse_content_loop parsers extractMd fuel (trimS mdrest.2)).map (fun tl =>
          (if trimS mdrest.1 = [] then [] else extractMd (trimS mdrest.1)) ++ tl)

/-- `parse_content`: the loop started on the trimmed input; the fuel bound
`length + 1` is what the claim's forward-progress argument justifies. -/
def parse_content (parsers : List ComponentParser) (extractMd : Str → List DocNode)
    (content : Str) : Option (List DocNode) :=
  parse_content_loop parsers extractMd (content.length + 1) (trimS content)

/- ### C5: termination of the dispatcher loop -/

/-- On `"<Card"` alone, `parse_cards` never finishes: the self-closing and
block card matchers fail (there is no `'>'`), `find("<Card")` returns offset
0, and the skip branch drops 0 characters, looping forever.  In the fuel
embedding the loop returns `none` at every fuel bound. -/
theorem parse_cards_card_none (f : Nat) : parse_cards f "<Card".data = none := by
  induction f with
  | zero => rfl
  | succ f ih =>
    exact (show parse_cards (f + 1) "<Card".data = parse_cards f "<Card".data from rfl).trans ih

/-- On `"x<Card"` the first iteration skips to the `"<Card"` occurrence and
the loop is then stuck as in `parse_cards_card_none`. -/
theorem parse_cards_xcard_none (f : Nat) : parse_cards f "x<Card".data = none := by
  cases f with
  | zero => rfl
  | succ f =>
    exact (show parse_cards (f + 1) "x<Card".data = parse_cards f "<Card".data from rfl).trans
      (parse_cards_card_none f)

/-- Concrete evaluation: the closing-tag scan of the inner text of the C5
failing input finds `</CardGroup>` at offset 6. -/
theorem find_closing_tag_xcard :
    find_closing_tag "x<Card</CardGroup>".data "CardGroup".data = some 6 := by
  simp [find_closing_tag, findLoop.eq_def, strFind.eq_def, openPat, closePat, List.isPrefixOf]

/-- `try_parse_card_group` never returns on `"<CardGroup>x<Card</CardGroup>"`:
the opening tag matches, the closing tag is found at offset 6, and
`parse_cards` diverges on the inner text `"x<Card"`. -/
theorem try_parse_card_group_diverges (cf : Nat) :
    try_parse_card_group cf "<CardGroup>x<Card</CardGroup>".data = none := by
  have hopen : matchOpenWithCols "<CardGroup".data 2 "<CardGroup>x<Card</CardGroup>".data
      = some (2, "x<Card</CardGroup>".data) := by decide
  simp only [try_parse_card_group, hopen]
  rw [(find_closing_tag_xcard :
    find_closing_tag ['x', '<', 'C', 'a', 'r', 'd', '<', '/', 'C', 'a', 'r', 'd', 'G', 'r', 'o', 'u', 'p', '>']
      ['C', 'a', 'r', 'd', 'G', 'r', 'o', 'u', 'p'] = some 6)]
  simp only [List.take_succ_cons, List.take_zero]
  rw [(parse_cards_xcard_none cf :
    parse_cards cf ['x', '<', 'C', 'a', 'r', 'd'] = none)]

/-- The callout parser does not match the C5 failing input. -/
theorem try_parse_callout_cardgroup :
    try_parse_callout "<CardGroup>x<Card</CardGroup>".data = none := rfl

/-- C5: the claim that `parse_content` terminates on every finite input is
false.  On the input `"<CardGroup>x<Card</CardGroup>"` the card-group parser
is reached (the callout parser does not match) and inside it `parse_cards`
loops forever: `find("<Card")` yields offset 0 and the skip branch makes no
progress, so the dispatcher never completes.  In the fuel embedding,
`parse_content` and its loop return `none` for every card-loop fuel `cf`,
every dispatcher fuel `df`, every continuation `tail` of the parser chain
and every markdown splitter `em`. -/
theorem c5_parse_content_diverges (cf df : Nat) (tail : List ComponentParser)
    (em : Str → List DocNode) :
    parse_content_loop (liftTotal try_parse_callout :: try_parse_card_group cf :: tail) em df
      "<CardGroup>x<Card</CardGroup>".data = none ∧
    parse_content (liftTotal try_parse_callout :: try_parse_card_group cf :: tail) em
      "<CardGroup>x<Card</CardGroup>".data = none := by
  have htp : tryParsersFirst (liftTotal try_parse_callout :: try_parse_card_group cf :: tail)
      "<CardGroup>x<Card</CardGroup>".data = none := by
    simp only [tryParsersFirst, liftTotal]
    rw [(try_parse_callout_cardgroup : try_parse_callout ['<', 'C', 'a', 'r', 'd', 'G', 'r',
      'o', 'u', 'p', '>', 'x', '<', 'C', 'a', 'r', 'd', '<', '/', 'C', 'a', 'r', 'd', 'G',
      'r', 'o', 'u', 'p', '>'] = none)]
    rw [(try_parse_card_group_diverges cf : try_parse_card_group cf ['<', 'C', 'a', 'r', 'd',
      'G', 'r', 'o', 'u', 'p', '>', 'x', '<', 'C', 'a', 'r', 'd', '<', '/', 'C', 'a', 'r',
      'd', 'G', 'r', 'o', 'u', 'p', '>'] = none)]
  have hloop : ∀ d, parse_content_loop
      (liftTotal try_parse_callout :: try_parse_card_group cf :: tail) em d
      "<CardGroup>x<Card</CardGroup>".data = none := by
    intro d
    cases d with
    | zero => rfl
    | succ d =>
      simp only [parse_content_loop]
      rw [if_neg (by decide)]
      rw [htp]
  refine ⟨hloop df, ?_⟩
  unfold parse_content
  rw [show trimS "<CardGroup>x<Card</CardGroup>".data
    = "<CardGroup>x<Card</CardGroup>".data from by decide]
  exact hloop _

/- ### Dispatcher step lemmas -/

/-- A parser that returns without matching hands over to the rest of the
chain. -/
theorem tryParsersFirst_cons_skip (p : ComponentParser) (ps : List ComponentParser) (s : Str)
    (h : p s = some none) : tryParsersFirst (p :: ps) s = tryParsersFirst ps s := by
  simp only [tryParsersFirst, h]

/-- A matching parser determines the chain's result. -/
theorem tryParsersFirst_cons_hit (p : ComponentParser) (ps : List ComponentParser) (s : Str)
    (r : DocNode × Str) (h : p s = some (some r)) :
    tryParsersFirst (p :: ps) s = some (some r) := by
  simp only [tryParsersFirst, h]

/-- One iteration of the dispatcher loop when a component parser matches:
push the node and continue on the trimmed rest. -/
theorem parse_content_loop_succ_hit (parsers : List ComponentParser) (em : Str → List DocNode)
    (df : Nat) (s : Str) (node : DocNode) (rest : Str) (hne : s ≠ [])
    (h : tryParsersFirst parsers s = some (some (node, rest))) :
    parse_content_loop parsers em (df + 1) s
      = (parse_content_loop parsers em df (trimS rest)).map (node :: ·) := by
  simp only [parse_content_loop]
  rw [if_neg hne, h]

/- ### C9: standalone cards become single-card card groups -/

/-- C9: for every content slice beginning with a standalone `<Card ...>`
element (one the card parser accepts, with a card end, and not a
`<CardGroup`), `try_parse_standalone_card` wraps the card in a `CardGroup`
node with `cols = 1` containing exactly that one card, and the dispatcher
loop (callout, card group, columns, standalone card, then any remaining
parsers) emits that `CardGroup` node — never a top-level `Card` variant,
which does not even exist in `DocNode`. -/
theorem c9_standalone_card_wraps (content : Str) (card : CardNode) (cardEnd : Nat) (cf df : Nat)
    (post : List ComponentParser) (em : Str → List DocNode)
    (h1 : "<Card".data.isPrefixOf content)
    (h2 : ¬ "<CardGroup".data.isPrefixOf content)
    (h3 : parse_single_card content = some card)
    (h4 : find_card_end content = some cardEnd) :
    try_parse_standalone_card content
      = some (.CardGroup ⟨1, [card]⟩, content.drop cardEnd) ∧
    parse_content_loop (liftTotal try_parse_callout :: try_parse_card_group cf ::
        try_parse_columns cf :: liftTotal try_parse_standalone_card :: post) em (df + 1) content
      = (parse_content_loop (liftTotal try_parse_callout :: try_parse_card_group cf ::
          try_parse_columns cf :: liftTotal try_parse_standalone_card :: post) em df
          (trimS (content.drop cardEnd))).map (DocNode.CardGroup ⟨1, [card]⟩ :: ·) := by
  obtain ⟨t, rfl⟩ := List.isPrefixOf_iff_prefix.mp h1
  have hne : "<Card".data ++ t ≠ [] := by simp
  have ha : try_parse_standalone_card ("<Card".data ++ t)
      = some (.CardGroup ⟨1, [card]⟩, ("<Card".data ++ t).drop cardEnd) := by
    unfold try_parse_standalone_card
    rw [if_pos h1, h3, h4]
  have hcallout : try_parse_callout ("<Card".data ++ t) = none := rfl
  have hcg : try_parse_card_group cf ("<Card".data ++ t) = some none := by
    unfold try_parse_card_group matchOpenWithCols
    rw [if_neg h2]
  have hcol : try_parse_columns cf ("<Card".data ++ t) = some none := rfl
  refine ⟨ha, ?_⟩
  rw [parse_content_loop_succ_hit _ _ _ _ _ _ hne ?_]
  rw [tryParsersFirst_cons_skip _ _ _ (show liftTotal try_parse_callout ("<Card".data ++ t)
      = some none from congrArg some hcallout)]
  rw [tryParsersFirst_cons_skip _ _ _ hcg]
  rw [tryParsersFirst_cons_skip _ _ _ hcol]
  exact tryParsersFirst_cons_hit _ _ _ _ (congrArg some ha)

/-- Witness for C9 at the concrete input `<Card title="A" />rest`: the
hypotheses hold by evaluation and the claim theorem applies. -/
theorem c9_standalone_card_witness :
    "<Card".data.isPrefixOf "<Card title=\"A\" />rest".data
    ∧ ¬ "<CardGroup".data.isPrefixOf "<Card title=\"A\" />rest".data
    ∧ parse_single_card "<Card title=\"A\" />rest".data
        = some ⟨"A".data, none, none, []⟩
    ∧ find_card_end "<Card title=\"A\" />rest".data = some 18
    ∧ (try_parse_standalone_card "<Card title=\"A\" />rest".data
        = some (.CardGroup ⟨1, [⟨"A".data, none, none, []⟩]⟩,
            ("<Card title=\"A\" />rest".data).drop 18)
      ∧ parse_content_loop (liftTotal try_parse_callout :: try_parse_card_group 0 ::
          try_parse_columns 0 :: liftTotal try_parse_standalone_card :: []) (fun _ => []) (0 + 1)
          "<Card title=\"A\" />rest".data
        = (parse_content_loop (liftTotal try_parse_callout :: try_parse_card_group 0 ::
            try_parse_columns 0 :: liftTotal try_parse_standalone_card :: []) (fun _ => []) 0
            (trimS (("<Card title=\"A\" />rest".data).drop 18))).map
            (DocNode.CardGroup ⟨1, [⟨"A".data, none, none, []⟩]⟩ :: ·)) :=
  ⟨by decide, by decide, rfl, rfl,
    c9_standalone_card_wraps "<Card title=\"A\" />rest".data ⟨"A".data, none, none, []⟩ 18 0 0 []
      (fun _ => []) (by decide) (by decide) rfl rfl⟩

/- ### C10: OpenAPI elements whose inner text fails to parse degrade to markdown -/

/-- `strFind` returns `none` when the pattern occurs at no position. -/

theorem strFind_eq_none_of (pat : Str) : ∀ (hay : Str),
    (∀ k, pat.isPrefixOf (hay.drop k) = false) → strFind hay pat = none
  | [], h => by
    have h0 := h 0
    rw [List.drop_nil] at h0
    rw [strFind.eq_def, if_neg (ne_true_of_eq_false h0)]
  | c :: t, h => by
    have h0 := h 0
    rw [List.drop_zero] at h0
    rw [strFind_cons_neg (ne_true_of_eq_false h0),
      strFind_eq_none_of pat t (fun k => by
        have hk := h (k + 1)
        rwa [List.drop_succ_cons] at hk)]
    rfl

/-- `strFind` returns the first position at which the pattern occurs. -/
theorem strFind_eq_some_of (pat : Str) : ∀ (hay : Str) (n : Nat),
    (∀ k < n, pat.isPrefixOf (hay.drop k) = false) →
    pat.isPrefixOf (hay.drop n) → strFind hay pat = some n
  | hay, 0, _, hn => by
    rw [List.drop_zero] at hn
    exact strFind_of_isPrefixOf hn
  | [], n + 1, h, hn => by
    rw [List.drop_nil] at hn
    have h0 := h 0 (Nat.succ_pos n)
    rw [List.drop_nil] at h0
    rw [h0] at hn
    exact absurd hn (by simp)
  | c :: t, n + 1, h, hn => by
    have h0 := h 0 (Nat.succ_pos n)
    rw [List.drop_zero] at h0
    rw [List.drop_succ_cons] at hn
    rw [strFind_cons_neg (ne_true_of_eq_false h0),
      strFind_eq_some_of pat t n (fun k hk => by
        have hk' := h (k + 1) (by omega)
        rwa [List.drop_succ_cons] at hk') hn]
    rfl

/-- Characters under a prefix occurrence are the pattern characters. -/
theorem getElem_of_prefix_drop {s p : Str} {k i : Nat}
    (h : p.isPrefixOf (s.drop k)) (hi : i < p.length) :
    s[k + i]? = p[i]? := by
  obtain ⟨t2, ht⟩ := List.isPrefixOf_iff_prefix.mp h
  rw [← List.getElem?_drop, ← ht, List.getElem?_append_left hi]

theorem mem_of_getElem {s : Str} {k : Nat} {a : Char} (h : s[k]? = some a) : a ∈ s :=
  List.getElem?_mem h

theorem prefix_lt_pos_false {pre suf p : Str} (hpre : '<' ∉ pre) (hp : p[0]? = some '<') :
    ∀ k < pre.length, p.isPrefixOf ((pre ++ suf).drop k) = false := by
  intro k hk
  cases hb : p.isPrefixOf ((pre ++ suf).drop k) with
  | false => rfl
  | true =>
    exfalso
    have hplen : 0 < p.length := by
      cases p with
      | nil => simp at hp
      | cons a t => simp
    have h0 : (pre ++ suf)[k]? = some '<' := by
      have h1 := getElem_of_prefix_drop hb hplen
      rw [Nat.add_zero] at h1
      rw [h1, hp]
    rw [List.getElem?_append_left hk] at h0
    exact hpre (mem_of_getElem h0)

/-- With no `'<'` in the inner text, the closing-tag scan of
`inner ++ "</OpenAPI>" ++ rest` finds the closing tag right after the inner
text (any later `<OpenAPI` occurrence in `rest` lies past it). -/
theorem find_closing_tag_inner (inner rest : Str) (h : '<' ∉ inner) :
    find_closing_tag (inner ++ (closePat "OpenAPI".data ++ rest)) "OpenAPI".data
      = some inner.length := by
  have hclose : strFind (inner ++ (closePat "OpenAPI".data ++ rest))
      (closePat "OpenAPI".data) = some inner.length := by
    refine strFind_eq_some_of _ _ _ (prefix_lt_pos_false h rfl) ?_
    rw [List.drop_left]
    exact List.isPrefixOf_iff_prefix.mpr (List.prefix_append _ _)
  have hlen : inner.length < (inner ++ (closePat "OpenAPI".data ++ rest)).length := by
    simp [closePat]
  rw [find_closing_tag, findLoop.eq_def,
    if_pos (⟨Nat.one_pos, Nat.lt_of_le_of_lt (Nat.zero_le _) hlen⟩ :
      0 < 1 ∧ 0 < (inner ++ (closePat "OpenAPI".data ++ rest)).length)]
  simp only [List.drop_zero]
  cases ho : strFind (inner ++ (closePat "OpenAPI".data ++ rest)) (openPat "OpenAPI".data) with
  | none =>
    rw [hclose]
    simp
  | some o =>
    have hge : inner.length ≤ o := by
      by_contra hlt
      have hsound := strFind_sound _ _ _ ho
      have := @prefix_lt_pos_false inner (closePat "OpenAPI".data ++ rest)
        (openPat "OpenAPI".data) h rfl o (by omega)
      rw [this] at hsound
      exact absurd hsound (by simp)
    rw [hclose]
    simp [if_neg (Nat.not_lt.mpr hge)]

theorem prefix_lt_pos_false' {pre suf p : Str} {a : Char} (hpre : a ∉ pre) (hp : p[0]? = some a) :
    ∀ k < pre.length, p.isPrefixOf ((pre ++ suf).drop k) = false := by
  intro k hk
  cases hb : p.isPrefixOf ((pre ++ suf).drop k) with
  | false => rfl
  | true =>
    exfalso
    have hplen : 0 < p.length := by
      cases p with
      | nil => simp at hp
      | cons b t => simp
    have h0 : (pre ++ suf)[k]? = some a := by
      have h1 := getElem_of_prefix_drop hb hplen
      rw [Nat.add_zero] at h1
      rw [h1, hp]
    rw [List.getElem?_append_left hk] at h0
    exact hpre (mem_of_getElem h0)

/-- When the spec text between `<OpenAPI ...>` and `</OpenAPI>` fails to
deserialize, `try_parse_openapi` returns `None` (not an error value). -/
theorem try_parse_openapi_error (parseSpec : Str → Except OpenApiError OpenApiSpec)
    (attrs inner rest : Str) (err : OpenApiError)
    (ha : '>' ∉ attrs) (hsl : endsWithSlash attrs = false) (hi : '<' ∉ inner)
    (hps : parseSpec (trimS inner) = .error err) :
    try_parse_openapi parseSpec
      ("<OpenAPI".data ++ (attrs ++ ('>' :: (inner ++ (closePat "OpenAPI".data ++ rest)))))
      = none := by
  set content := "<OpenAPI".data ++ (attrs ++ ('>' :: (inner ++ (closePat "OpenAPI".data ++ rest)))) with hcdef
  have hpre : "<OpenAPI".data.isPrefixOf content = true :=
    List.isPrefixOf_iff_prefix.mpr (List.prefix_append _ _)
  have hgt : strFind content ['>'] = some (8 + attrs.length) := by
    have hc2 : content = ("<OpenAPI".data ++ attrs) ++
        ('>' :: (inner ++ (closePat "OpenAPI".data ++ rest))) := by
      rw [hcdef, List.append_assoc]
    rw [hc2]
    have hlen : ("<OpenAPI".data ++ attrs).length = 8 + attrs.length := by
      rw [List.length_append]
      rfl
    rw [← hlen]
    refine strFind_eq_some_of _ _ _ ?_ ?_
    · refine prefix_lt_pos_false' ?_ rfl
      intro hmem
      rcases List.mem_append.mp hmem with hmem | hmem
      · exact absurd hmem (by decide)
      · exact ha hmem
    · rw [List.drop_left]
      simp [List.isPrefixOf]
  have hdrop8 : content.drop 8 = attrs ++ ('>' :: (inner ++ (closePat "OpenAPI".data ++ rest))) := by
    rw [hcdef]
    exact List.drop_left' (by decide)
  have hdrop9 : content.drop (8 + attrs.length + 1)
      = inner ++ (closePat "OpenAPI".data ++ rest) := by
    have hc2 : content = (("<OpenAPI".data ++ attrs) ++ ['>'])
        ++ (inner ++ (closePat "OpenAPI".data ++ rest)) := by
      rw [hcdef]
      simp
    rw [hc2]
    exact List.drop_left' (by
      simp only [List.length_append, List.length_cons, List.length_nil])
  have hfct := find_closing_tag_inner inner rest hi
  simp only [try_parse_openapi, hpre, if_true, hgt]
  simp only [Nat.add_sub_cancel_left, hdrop8]
  rw [List.take_left]
  simp only [hsl, Bool.false_eq_true, if_false, hdrop9, hfct]
  rw [List.take_left]
  simp [hps]

theorem fnc_zero {content : Str} (h : "<OpenAPI".data.isPrefixOf content) :
    find_next_component content = some 0 := by
  rw [find_next_component]
  rw [List.min?_eq_some_iff']
  constructor
  · exact List.mem_filterMap.mpr ⟨"<OpenAPI".data, by simp [componentPatterns],
      strFind_of_isPrefixOf h⟩
  · intro b _
    exact Nat.zero_le b

/-- No component pattern occurs in `dw ++ "</OpenAPI>"` when `dw` has no
`'<'`: every pattern starts with `'<'` followed by a letter, and the only
`'<'` is followed by `'/'`. -/
theorem fnc_close_none {dw : Str} (h : '<' ∉ dw) :
    find_next_component (dw ++ closePat "OpenAPI".data) = none := by
  rw [find_next_component]
  have hall : componentPatterns.filterMap
      (fun p => strFind (dw ++ closePat "OpenAPI".data) p) = [] := by
    rw [List.filterMap_eq_nil_iff]
    intro p hp
    obtain ⟨d, q, hpq, hd⟩ : ∃ d q, p = '<' :: d :: q ∧ (d == '/') = false := by
      fin_cases hp <;> exact ⟨_, _, rfl, rfl⟩
    subst hpq
    refine strFind_eq_none_of _ _ ?_
    intro k
    cases hb : ('<' :: d :: q).isPrefixOf ((dw ++ closePat "OpenAPI".data).drop k) with
    | false => rfl
    | true =>
      exfalso
      have h0 : (dw ++ closePat "OpenAPI".data)[k]? = some '<' := by
        have h1 := @getElem_of_prefix_drop _ _ _ 0 hb (by simp)
        rw [Nat.add_zero] at h1
        rw [h1]
        simp
      have h1 : (dw ++ closePat "OpenAPI".data)[k + 1]? = some d := by
        have h2 := @getElem_of_prefix_drop _ _ _ 1 hb (by simp)
        rw [h2]
        simp
      rcases Nat.lt_or_ge k dw.length with hk | hk
      · rw [List.getElem?_append_left hk] at h0
        exact h (mem_of_getElem h0)
      · rw [List.getElem?_append_right hk] at h0
        cases hjc : k - dw.length with
        | zero =>
          rw [hjc] at h0
          have h1' : (dw ++ closePat "OpenAPI".data)[k + 1]? = some '/' := by
            rw [List.getElem?_append_right (by omega),
              show k + 1 - dw.length = 1 from by omega]
            rfl
          rw [h1'] at h1
          injection h1 with h1
          rw [← h1] at hd
          simp at hd
        | succ j' =>
          rw [hjc] at h0
          have hmem : '<' ∈ ('/' :: ("OpenAPI".data ++ ['>'])) :=
            mem_of_getElem (by simpa [closePat] using h0)
          exact absurd hmem (by decide)
  rw [hall]
  rfl

theorem trimStart_cons_of_not_ws {c : Char} (h : c.isWhitespace = false) (s : Str) :
    trimStart (c :: s) = c :: s := by
  simp [trimStart, List.dropWhile_cons, h]

theorem trimEnd_concat_of_not_ws {c : Char} (h : c.isWhitespace = false) (s : Str) :
    trimEnd (s ++ [c]) = s ++ [c] := by
  simp [trimEnd, List.dropWhile_cons, h]

theorem trimStart_append_close (inner : Str) :
    trimStart (inner ++ closePat "OpenAPI".data)
      = (inner.dropWhile Char.isWhitespace) ++ closePat "OpenAPI".data := by
  rw [trimStart, List.dropWhile_append]
  cases hdw : inner.dropWhile Char.isWhitespace with
  | nil => simp [closePat, List.dropWhile_cons]
  | cons c t => simp

theorem trimS_append_close (inner : Str) :
    trimS (inner ++ closePat "OpenAPI".data)
      = (inner.dropWhile Char.isWhitespace) ++ closePat "OpenAPI".data := by
  rw [trimS, trimStart_append_close]
  have hsh : (inner.dropWhile Char.isWhitespace) ++ closePat "OpenAPI".data
      = ((inner.dropWhile Char.isWhitespace) ++ "</OpenAPI".data) ++ ['>'] := by
    simp [closePat]
  rw [hsh, trimEnd_concat_of_not_ws (by decide), ← hsh]

theorem lt_tag_prefix_close {dw : Str} (h : '<' ∉ dw) (d : Char) (q : Str)
    (hd : (d == '/') = false) :
    ('<' :: d :: q).isPrefixOf (dw ++ closePat "OpenAPI".data) = false := by
  cases dw with
  | nil =>
    simp only [List.nil_append, closePat]
    simp [List.isPrefixOf, hd]
  | cons c t =>
    have hc : ('<' == c) = false := by
      cases hbc : ('<' == c) with
      | false => rfl
      | true =>
        have hmem : '<' ∈ c :: t := by
          rw [eq_of_beq hbc]
          exact List.mem_cons_self c t
        exact absurd hmem h
    simp [List.isPrefixOf, hc]

theorem tryParsersFirst_append_skip (ps qs : List ComponentParser) (s : Str)
    (h : ∀ p ∈ ps, p s = some none) :
    tryParsersFirst (ps ++ qs) s = tryParsersFirst qs s := by
  induction ps with
  | nil => rfl
  | cons p pt ih =>
    rw [List.cons_append, tryParsersFirst_cons_skip _ _ _ (h p (List.mem_cons_self p pt))]
    exact ih (fun p' hp => h p' (List.mem_cons.mpr (Or.inr hp)))

theorem parse_content_loop_succ_skip0 (parsers : List ComponentParser) (em : Str → List DocNode)
    (df : Nat) (s : Str) (n : Nat) (hne : s ≠ [])
    (htp : tryParsersFirst parsers s = some none)
    (hfnc : find_next_component s = some 0)
    (hgt : strFind s ['>'] = some n) :
    parse_content_loop parsers em (df + 1) s
      = (parse_content_loop parsers em df (trimS (s.drop (n + 1)))).map (fun tl =>
          (if trimS (s.take (n + 1)) = [] then [] else em (trimS (s.take (n + 1)))) ++ tl) := by
  simp only [parse_content_loop]
  rw [if_neg hne, htp, hfnc, hgt]
  rfl

theorem parse_content_loop_succ_md_end (parsers : List ComponentParser) (em : Str → List DocNode)
    (df : Nat) (s : Str) (hne : s ≠ [])
    (htp : tryParsersFirst parsers s = some none)
    (hfnc : find_next_component s = none) :
    parse_content_loop parsers em (df + 1) s
      = (parse_content_loop parsers em df []).map (fun tl =>
          (if trimS s = [] then [] else em (trimS s)) ++ tl) := by
  simp only [parse_content_loop]
  rw [if_neg hne, htp, hfnc]
  rfl

theorem parse_content_loop_nil (parsers : List ComponentParser) (em : Str → List DocNode)
    (df : Nat) : parse_content_loop parsers em (df + 1) [] = some [] := rfl

theorem strFind_gt (attrs tail : Str) (ha : '>' ∉ attrs) :
    strFind ("<OpenAPI".data ++ (attrs ++ ('>' :: tail))) ['>'] = some (8 + attrs.length) := by
  have hc2 : "<OpenAPI".data ++ (attrs ++ ('>' :: tail))
      = ("<OpenAPI".data ++ attrs) ++ ('>' :: tail) := by rw [List.append_assoc]
  rw [hc2]
  have hlen : ("<OpenAPI".data ++ attrs).length = 8 + attrs.length := by
    rw [List.length_append]
    rfl
  rw [← hlen]
  refine strFind_eq_some_of _ _ _ ?_ ?_
  · refine prefix_lt_pos_false' ?_ rfl
    intro hmem
    rcases List.mem_append.mp hmem with hmem | hmem
    · exact absurd hmem (by decide)
    · exact ha hmem
  · rw [List.drop_left]
    simp [List.isPrefixOf]

theorem trimS_openTag (attrs : Str) :
    trimS ("<OpenAPI".data ++ attrs ++ ['>']) = "<OpenAPI".data ++ attrs ++ ['>'] := by
  have h1 : trimStart ("<OpenAPI".data ++ attrs ++ ['>']) = "<OpenAPI".data ++ attrs ++ ['>'] :=
    trimStart_cons_of_not_ws (by decide) _
  rw [trimS, h1]
  exact trimEnd_concat_of_not_ws (by decide) _

theorem c10_b (parseSpec : Str → Except OpenApiError OpenApiSpec)
    (attrs inner : Str) (err : OpenApiError) (cf df : Nat)
    (mid : List ComponentParser) (em : Str → List DocNode)
    (ha : '>' ∉ attrs) (hsl : endsWithSlash attrs = false) (hi : '<' ∉ inner)
    (hps : parseSpec (trimS inner) = .error err)
    (hmid : ∀ p ∈ mid,
      p ("<OpenAPI".data ++ (attrs ++ ('>' :: (inner ++ closePat "OpenAPI".data)))) = some none ∧
      p ((inner.dropWhile Char.isWhitespace) ++ closePat "OpenAPI".data) = some none) :
    parse_content_loop (liftTotal try_parse_callout :: try_parse_card_group cf ::
        try_parse_columns cf :: liftTotal try_parse_standalone_card ::
        (mid ++ [liftTotal (try_parse_openapi parseSpec)])) em (df + 3)
      ("<OpenAPI".data ++ (attrs ++ ('>' :: (inner ++ closePat "OpenAPI".data))))
      = some (em ("<OpenAPI".data ++ attrs ++ ['>'])
          ++ em ((inner.dropWhile Char.isWhitespace) ++ closePat "OpenAPI".data)) := by
  have ha0 : try_parse_openapi parseSpec
      ("<OpenAPI".data ++ (attrs ++ ('>' :: (inner ++ closePat "OpenAPI".data)))) = none := by
    have h0 := try_parse_openapi_error parseSpec attrs inner [] err ha hsl hi hps
    rwa [List.append_nil] at h0
  have htp1 : tryParsersFirst (liftTotal try_parse_callout :: try_parse_card_group cf ::
      try_parse_columns cf :: liftTotal try_parse_standalone_card ::
      (mid ++ [liftTotal (try_parse_openapi parseSpec)]))
      ("<OpenAPI".data ++ (attrs ++ ('>' :: (inner ++ closePat "OpenAPI".data))))
      = some none := by
    rw [tryParsersFirst_cons_skip _ _ _ (rfl : liftTotal try_parse_callout
      ("<OpenAPI".data ++ (attrs ++ ('>' :: (inner ++ closePat "OpenAPI".data)))) = some none)]
    rw [tryParsersFirst_cons_skip _ _ _ (rfl : try_parse_card_group cf
      ("<OpenAPI".data ++ (attrs ++ ('>' :: (inner ++ closePat "OpenAPI".data)))) = some none)]
    rw [tryParsersFirst_cons_skip _ _ _ (rfl : try_parse_columns cf
      ("<OpenAPI".data ++ (attrs ++ ('>' :: (inner ++ closePat "OpenAPI".data)))) = some none)]
    rw [tryParsersFirst_cons_skip _ _ _ (rfl : liftTotal try_parse_standalone_card
      ("<OpenAPI".data ++ (attrs ++ ('>' :: (inner ++ closePat "OpenAPI".data)))) = some none)]
    rw [tryParsersFirst_append_skip mid _ _ (fun p hp => (hmid p hp).1)]
    rw [tryParsersFirst_cons_skip _ _ _ (congrArg some ha0)]
    rfl
  have hloop1 := parse_content_loop_succ_skip0 (liftTotal try_parse_callout ::
      try_parse_card_group cf :: try_parse_columns cf :: liftTotal try_parse_standalone_card ::
      (mid ++ [liftTotal (try_parse_openapi parseSpec)])) em (df + 2)
      ("<OpenAPI".data ++ (attrs ++ ('>' :: (inner ++ closePat "OpenAPI".data))))
      (8 + attrs.length) (by simp) htp1
      (fnc_zero (List.isPrefixOf_iff_prefix.mpr (List.prefix_append _ _)))
      (strFind_gt attrs (inner ++ closePat "OpenAPI".data) ha)
  have hshape : "<OpenAPI".data ++ (attrs ++ ('>' :: (inner ++ closePat "OpenAPI".data)))
      = ("<OpenAPI".data ++ attrs ++ ['>']) ++ (inner ++ closePat "OpenAPI".data) := by
    simp
  have hlen3 : ("<OpenAPI".data ++ attrs ++ ['>']).length = 8 + attrs.length + 1 := by
    simp only [List.length_append, List.length_cons, List.length_nil]
  have htake : ("<OpenAPI".data ++ (attrs ++ ('>' :: (inner ++ closePat "OpenAPI".data)))).take
      (8 + attrs.length + 1) = "<OpenAPI".data ++ attrs ++ ['>'] := by
    rw [hshape]
    exact List.take_left' hlen3
  have hdropc : ("<OpenAPI".data ++ (attrs ++ ('>' :: (inner ++ closePat "OpenAPI".data)))).drop
      (8 + attrs.length + 1) = inner ++ closePat "OpenAPI".data := by
    rw [hshape]
    exact List.drop_left' hlen3
  rw [htake, hdropc, trimS_openTag, trimS_append_close] at hloop1
  rw [if_neg (show ¬("<OpenAPI".data ++ attrs ++ ['>']) = [] by simp)] at hloop1
  have h2 : '<' ∉ inner.dropWhile Char.isWhitespace :=
    fun hm => hi ((List.dropWhile_sublist Char.isWhitespace).subset hm)
  have hco2 : try_parse_callout
      ((inner.dropWhile Char.isWhitespace) ++ closePat "OpenAPI".data) = none := by
    simp [try_parse_callout, calloutTags, calloutLoop, openTagS,
      (lt_tag_prefix_close h2 'T' "ip>".data rfl : List.isPrefixOf ['<', 'T', 'i', 'p', '>']
        ((inner.dropWhile Char.isWhitespace) ++ closePat "OpenAPI".data) = false),
      (lt_tag_prefix_close h2 'N' "ote>".data rfl : List.isPrefixOf ['<', 'N', 'o', 't', 'e', '>']
        ((inner.dropWhile Char.isWhitespace) ++ closePat "OpenAPI".data) = false),
      (lt_tag_prefix_close h2 'W' "arning>".data rfl :
        List.isPrefixOf ['<', 'W', 'a', 'r', 'n', 'i', 'n', 'g', '>']
        ((inner.dropWhile Char.isWhitespace) ++ closePat "OpenAPI".data) = false),
      (lt_tag_prefix_close h2 'I' "nfo>".data rfl : List.isPrefixOf ['<', 'I', 'n', 'f', 'o', '>']
        ((inner.dropWhile Char.isWhitespace) ++ closePat "OpenAPI".data) = false)]
  have hcg2 : try_parse_card_group cf
      ((inner.dropWhile Char.isWhitespace) ++ closePat "OpenAPI".data) = some none := by
    simp [try_parse_card_group, matchOpenWithCols,
      (lt_tag_prefix_close h2 'C' "ardGroup".data rfl :
        List.isPrefixOf ['<', 'C', 'a', 'r', 'd', 'G', 'r', 'o', 'u', 'p']
        ((inner.dropWhile Char.isWhitespace) ++ closePat "OpenAPI".data) = false)]
  have hcol2 : try_parse_columns cf
      ((inner.dropWhile Char.isWhitespace) ++ closePat "OpenAPI".data) = some none := by
    simp [try_parse_columns, matchOpenWithCols,
      (lt_tag_prefix_close h2 'C' "olumns".data rfl :
        List.isPrefixOf ['<', 'C', 'o', 'l', 'u', 'm', 'n', 's']
        ((inner.dropWhile Char.isWhitespace) ++ closePat "OpenAPI".data) = false)]
  have hsa2 : try_parse_standalone_card
      ((inner.dropWhile Char.isWhitespace) ++ closePat "OpenAPI".data) = none := by
    simp [try_parse_standalone_card,
      (lt_tag_prefix_close h2 'C' "ard".data rfl : List.isPrefixOf ['<', 'C', 'a', 'r', 'd']
        ((inner.dropWhile Char.isWhitespace) ++ closePat "OpenAPI".data) = false)]
  have hoa2 : try_parse_openapi parseSpec
      ((inner.dropWhile Char.isWhitespace) ++ closePat "OpenAPI".data) = none := by
    simp [try_parse_openapi,
      (lt_tag_prefix_close h2 'O' "penAPI".data rfl :
        List.isPrefixOf ['<', 'O', 'p', 'e', 'n', 'A', 'P', 'I']
        ((inner.dropWhile Char.isWhitespace) ++ closePat "OpenAPI".data) = false)]
  have htp2 : tryParsersFirst (liftTotal try_parse_callout :: try_parse_card_group cf ::
      try_parse_columns cf :: liftTotal try_parse_standalone_card ::
      (mid ++ [liftTotal (try_parse_openapi parseSpec)]))
      ((inner.dropWhile Char.isWhitespace) ++ closePat "OpenAPI".data) = some none := by
    rw [tryParsersFirst_cons_skip _ _ _ (congrArg some hco2)]
    rw [tryParsersFirst_cons_skip _ _ _ hcg2]
    rw [tryParsersFirst_cons_skip _ _ _ hcol2]
    rw [tryParsersFirst_cons_skip _ _ _ (congrArg some hsa2)]
    rw [tryParsersFirst_append_skip mid _ _ (fun p hp => (hmid p hp).2)]
    rw [tryParsersFirst_cons_skip _ _ _ (congrArg some hoa2)]
    rfl
  have hne2 : (inner.dropWhile Char.isWhitespace) ++ closePat "OpenAPI".data ≠ [] := by
    simp [closePat]
  have hloop2 := parse_content_loop_succ_md_end (liftTotal try_parse_callout ::
      try_parse_card_group cf :: try_parse_columns cf :: liftTotal try_parse_standalone_card ::
      (mid ++ [liftTotal (try_parse_openapi parseSpec)])) em (df + 1)
      ((inner.dropWhile Char.isWhitespace) ++ closePat "OpenAPI".data) hne2 htp2
      (fnc_close_none h2)
  rw [trimS_append_close, List.dropWhile_idempotent] at hloop2
  rw [if_neg hne2] at hloop2
  rw [show df + 3 = df + 2 + 1 from by omega] at *
  rw [hloop1]
  rw [show df + 2 = df + 1 + 1 from by omega]
  rw [hloop2]
  rw [parse_content_loop_nil]
  simp

/-- C10: for every block-form `<OpenAPI ...>inner</OpenAPI>` element whose
inner text fails to parse as an OpenAPI spec, `try_parse_openapi` returns
`None` rather than an error; consequently the dispatcher falls through to the
forced-skip fallback, which degrades the element text to markdown nodes: the
loop (the concrete head parsers, any intermediate parsers that do not match,
and the OpenAPI parser last, as in `parse_content`) returns the markdown
extraction of the opening-tag text followed by that of the inner text plus
closing tag, with no `OpenApi` node and no error value. -/
theorem c10_openapi_parse_failure_degrades (parseSpec : Str → Except OpenApiError OpenApiSpec)
    (attrs inner rest : Str) (err : OpenApiError) (cf df : Nat)
    (mid : List ComponentParser) (em : Str → List DocNode)
    (ha : '>' ∉ attrs) (hsl : endsWithSlash attrs = false) (hi : '<' ∉ inner)
    (hps : parseSpec (trimS inner) = .error err)
    (hmid : ∀ p ∈ mid,
      p ("<OpenAPI".data ++ (attrs ++ ('>' :: (inner ++ closePat "OpenAPI".data)))) = some none ∧
      p ((inner.dropWhile Char.isWhitespace) ++ closePat "OpenAPI".data) = some none) :
    try_parse_openapi parseSpec
      ("<OpenAPI".data ++ (attrs ++ ('>' :: (inner ++ (closePat "OpenAPI".data ++ rest)))))
      = none ∧
    parse_content_loop (liftTotal try_parse_callout :: try_parse_card_group cf ::
        try_parse_columns cf :: liftTotal try_parse_standalone_card ::
        (mid ++ [liftTotal (try_parse_openapi parseSpec)])) em (df + 3)
      ("<OpenAPI".data ++ (attrs ++ ('>' :: (inner ++ closePat "OpenAPI".data))))
      = some (em ("<OpenAPI".data ++ attrs ++ ['>'])
          ++ em ((inner.dropWhile Char.isWhitespace) ++ closePat "OpenAPI".data)) :=
  ⟨try_parse_openapi_error parseSpec attrs inner rest err ha hsl hi hps,
   c10_b parseSpec attrs inner err cf df mid em ha hsl hi hps hmid⟩

/-- Witness for C10 at `attrs = ""`, `inner = "x"`, a parser that always
fails, and no intermediate parsers. -/
theorem c10_openapi_witness :
    ('>' ∉ ([] : Str)) ∧ endsWithSlash [] = false ∧ ('<' ∉ "x".data)
    ∧ ((fun _ => .error (.ParseError "")) (trimS "x".data)
        = (Except.error (.ParseError "") : Except OpenApiError OpenApiSpec))
    ∧ (try_parse_openapi (fun _ => .error (.ParseError ""))
        ("<OpenAPI".data ++ (([] : Str) ++ ('>' :: ("x".data ++ (closePat "OpenAPI".data ++ [])))))
        = none ∧
      parse_content_loop (liftTotal try_parse_callout :: try_parse_card_group 0 ::
          try_parse_columns 0 :: liftTotal try_parse_standalone_card ::
          (([] : List ComponentParser) ++ [liftTotal (try_parse_openapi
            (fun _ => .error (.ParseError "")))])) (fun _ => []) (0 + 3)
        ("<OpenAPI".data ++ (([] : Str) ++ ('>' :: ("x".data ++ closePat "OpenAPI".data))))
        = some ((fun _ => ([] : List DocNode)) ("<OpenAPI".data ++ ([] : Str) ++ ['>'])
            ++ (fun _ => ([] : List DocNode))
              (("x".data.dropWhile Char.isWhitespace) ++ closePat "OpenAPI".data))) :=
  ⟨by decide, rfl, by decide, rfl,
    c10_openapi_parse_failure_degrades (fun _ => .error (.ParseError "")) [] "x".data [] (.ParseError "") 0 0 []
      (fun _ => []) (by decide) rfl (by decide) rfl (by simp)⟩
